import Mathlib

/-!
Verification of the fluxforge chunk-processing library.

This file is a shallow embedding, in Lean 4, of the code of the
fluxforge repository:

- the `TaskController` class (pause / resume / cancel token with an
  `AbortController` handle and force-resolvable delay timers),
- the `executeWithRetry` back-off retry loop,
- the `processChunks` bounded-concurrency scheduler,
- the `collectChunks` and `calculateFileHash` aggregation helpers,

together with theorems settling the specification's claims about them.
Asynchronous JavaScript control flow is embedded as explicit state
machines: the scheduler becomes a small-step transition system whose
events are the suspension points of the real code (promise
resolutions, microtask wake-ups, user lifecycle calls), and the retry
loop becomes a recursion over a finite schedule of loop-iteration
environments.
-/

namespace FluxForge

/-- Errors of the embedded system.  `cancelled` models the
`Error('Task cancelled')` thrown by `TaskController.checkCancelled`;
`srcFailed i` models a rejection of chunk source `i`; `procFailed c`
models a failure thrown by the user-supplied processor (the payload
`c` just distinguishes different failures). -/
inductive FFError where
  | cancelled
  | srcFailed (i : Nat)
  | procFailed (c : Nat)
deriving DecidableEq, Repr

/-- Environment of one iteration of the `while (true)` loop of
`executeWithRetry`: the value of `controller.cancelled` seen by the
`checkCancelled()` call at the top of the loop, the value seen by the
re-check after `await controller.waitIfPaused()`, and the outcome of
the attempted `fn()` in case the loop reaches the attempt.  A list of
these environments is a finite schedule of loop iterations. -/
structure RetryIter (T : Type) where
  cancelledAtCheck : Bool
  cancelledAfterPause : Bool
  attempt : Except FFError T
deriving Repr

/-- The `executeWithRetry` loop run over a finite schedule of
iteration environments.  `retry` is the JavaScript `retry` counter: it
starts at `0` and is post-incremented at each failure, the requested
back-off being `Math.min(1000 * retry++, 5000)` milliseconds.  Returns
the settled outcome (`none` when the schedule is exhausted while the
loop is still spinning, i.e. the run has not settled yet) paired with
the list of delays requested through `controller.delay`. -/
def executeWithRetryAux (T : Type) (retry : Nat) :
    List (RetryIter T) → Option (Except FFError T) × List Nat
  | [] => (none, [])
  | it :: rest =>
    if it.cancelledAtCheck then (some (Except.error FFError.cancelled), [])
    else if it.cancelledAfterPause then (some (Except.error FFError.cancelled), [])
    else
      match it.attempt with
      | Except.ok v => (some (Except.ok v), [])
      | Except.error _ =>
        let d := min (1000 * retry) 5000
        let r := executeWithRetryAux T (retry + 1) rest
        (r.1, d :: r.2)

/-- Settled outcome of `executeWithRetry` over a schedule of loop
iterations (with the retry counter starting at 0, as in the source). -/
def executeWithRetry (T : Type) (iters : List (RetryIter T)) :
    Option (Except FFError T) :=
  (executeWithRetryAux T 0 iters).1

/-- Sequence of back-off delays requested by `executeWithRetry` over a
schedule of loop iterations. -/
def retryDelays (T : Type) (iters : List (RetryIter T)) : List Nat :=
  (executeWithRetryAux T 0 iters).2

/-- Schedule in which the token is never cancelled and every attempt
fails (an always-failing operation), one iteration per listed error. -/
def failIters (T : Type) (es : List FFError) : List (RetryIter T) :=
  es.map (fun e => ⟨false, false, Except.error e⟩)

/-- State of a `TaskController` instance.  `paused` and `cancelled`
are the two private flags; `pauseResolvers` is the number of resolvers
currently registered by `waitIfPaused`; `timers` holds the pending
delays as pairs of a bookkeeping identifier and the remaining
milliseconds; `gen` identifies the currently installed
`AbortController` (a fresh one is minted by `resume`); `firedGens`
lists the generations whose controller has been aborted; `nextTimerId`
feeds fresh timer identifiers. -/
structure CtrlState where
  paused : Bool
  cancelled : Bool
  pauseResolvers : Nat
  timers : List (Nat × Nat)
  gen : Nat
  firedGens : List Nat
  nextTimerId : Nat
deriving DecidableEq, Repr

namespace CtrlState

/-- A freshly constructed `TaskController`. -/
def initCtrl : CtrlState := ⟨false, false, 0, [], 0, [], 0⟩

/-- `get signal()`: the interruption handle currently exposed to
asynchronous tasks. -/
def signal (s : CtrlState) : Nat := s.gen

/-- Whether handle `g` has been fired, i.e. its `AbortController` has
been aborted.  An aborted controller never becomes un-aborted. -/
def signalFired (s : CtrlState) (g : Nat) : Bool := decide (g ∈ s.firedGens)

/-- `checkCancelled()`: throws `Error('Task cancelled')` when the
`cancelled` flag is set. -/
def checkCancelled (s : CtrlState) : Except FFError Unit :=
  if s.cancelled then Except.error FFError.cancelled else Except.ok ()

/-- `waitIfPaused()`: returns at once when not paused, otherwise
registers a resolver to be released on resume. -/
def waitIfPaused (s : CtrlState) : CtrlState :=
  if s.paused then { s with pauseResolvers := s.pauseResolvers + 1 } else s

/-- `delay(ms)`: schedules a wake-up in `ms` milliseconds and records
it in `timers`; the second component is the new timer's identifier.
Note that `delay` never consults the `cancelled` flag. -/
def delay (ms : Nat) (s : CtrlState) : CtrlState × Nat :=
  ({ s with timers := s.timers ++ [(s.nextTimerId, ms)],
            nextTimerId := s.nextTimerId + 1 }, s.nextTimerId)

/-- `clearTimers()`: drops every pending timer, force-resolving the
corresponding delays immediately. -/
def clearTimers (s : CtrlState) : CtrlState := { s with timers := [] }

/-- `pause()`: sets `paused`, aborts the current `AbortController`
and force-resolves the pending delays. -/
def pause (s : CtrlState) : CtrlState :=
  { s with paused := true, firedGens := s.gen :: s.firedGens, timers := [] }

/-- `resume()`: a no-op when not paused; otherwise clears `paused`,
installs a fresh `AbortController`, force-resolves pending delays and
releases every registered pause resolver. -/
def resume (s : CtrlState) : CtrlState :=
  if s.paused then
    { s with paused := false, gen := s.gen + 1, timers := [], pauseResolvers := 0 }
  else s

/-- `cancel()`: sets `cancelled`, aborts the current
`AbortController`, force-resolves pending delays and, when paused,
clears `paused` and releases the pause resolvers. -/
def cancel (s : CtrlState) : CtrlState :=
  let s1 : CtrlState :=
    { s with cancelled := true, firedGens := s.gen :: s.firedGens, timers := [] }
  if s.paused then { s1 with paused := false, pauseResolvers := 0 } else s1

/-- `cleanup()`: clears `paused`, empties the resolver list (without
resolving) and clears the timers. -/
def cleanup (s : CtrlState) : CtrlState :=
  { s with paused := false, pauseResolvers := 0, timers := [] }

/-- One millisecond of real time passing: every pending timer counts
down, and a timer whose remaining time reaches zero fires and is
removed. -/
def tick (s : CtrlState) : CtrlState :=
  { s with timers := (s.timers.map (fun p => (p.1, p.2 - 1))).filter (fun p => p.2 != 0) }

/-- `n` milliseconds of real time passing. -/
def ticksN : Nat → CtrlState → CtrlState
  | 0, s => s
  | n + 1, s => ticksN n (tick s)

end CtrlState

/-- The operations a `TaskController` can undergo after construction:
the public lifecycle methods, a delay registration and the passage of
time. -/
inductive CtrlOp where
  | pause
  | resume
  | cancel
  | cleanup
  | delayReq (ms : Nat)
  | tick
deriving DecidableEq, Repr

/-- Apply one controller operation. -/
def applyOp (s : CtrlState) : CtrlOp → CtrlState
  | CtrlOp.pause => s.pause
  | CtrlOp.resume => s.resume
  | CtrlOp.cancel => s.cancel
  | CtrlOp.cleanup => s.cleanup
  | CtrlOp.delayReq ms => (CtrlState.delay ms s).1
  | CtrlOp.tick => s.tick

/-- Apply a sequence of controller operations in order. -/
def applyOps (s : CtrlState) (ops : List CtrlOp) : CtrlState :=
  ops.foldl applyOp s

/-- Every fired generation is at most the current generation (holds in
every reachable controller state, since only `resume` mints
generations and only the current generation is ever aborted). -/
def genBound (s : CtrlState) : Prop := ∀ g ∈ s.firedGens, g ≤ s.gen

/-- A chunk produced by the splitting stage.  The `end` field of the
source is called `endPos` here because `end` is a Lean keyword; the
blob is kept as opaque bytes. -/
structure Chunk where
  blob : List Nat
  hash : String
  index : Nat
  start : Nat
  endPos : Nat
deriving DecidableEq, Repr, Inhabited

/-- Resolution of a list of settled promises in the all-resolved
case: the values in index order, or the first error in index order
(only used by `promiseAll` when no source at all failed, where it
yields the values in index order). -/
def allResolved (α : Type) : List (Except FFError α) → Except FFError (List α)
  | [] => Except.ok []
  | Except.ok v :: rest => (allResolved α rest).map (fun vs => v :: vs)
  | Except.error e :: _ => Except.error e

/-- The outcome of source `i` if it has failed, `none` if it
resolves.  Probing the sources in settle order with this function
finds the error `Promise.all` rejects with. -/
def firstErrProbe (α : Type) (xs : List (Except FFError α)) (i : Nat) : Option FFError :=
  match xs.get? i with
  | some (Except.error e) => some e
  | _ => none

/-- `Promise.all` over the listed eventual outcomes.  `order` is the
temporal order in which the sources settle (for a full run, a
permutation of the indices).  The aggregate promise rejects with the
error of the first source, in settle order, to fail; otherwise it
resolves with the values in index order. -/
def promiseAll (α : Type) (order : List Nat) (xs : List (Except FFError α)) :
    Except FFError (List α) :=
  match order.findSome? (firstErrProbe α xs) with
  | some e => Except.error e
  | none => allResolved α xs

/-- `collectChunks(chunkPromises)`: `Promise.all` over the chunk
sources. -/
def collectChunks (order : List Nat) (sources : List (Except FFError Chunk)) :
    Except FFError (List Chunk) :=
  promiseAll Chunk order sources

/-- SparkMD5 incremental hashing, `hasher.append(piece)`: the hasher
state is the sequence of appended pieces. -/
def sparkAppend (st : List String) (piece : String) : List String := st ++ [piece]

/-- SparkMD5 `hasher.end()`: digests the concatenation of the
appended pieces with the (abstract, externally supplied) md5
function. -/
def sparkEnd (md5 : String → String) (st : List String) : String :=
  md5 (String.join st)

/-- `calculateFileHash(chunkPromises)`: awaits every source via
`Promise.all`, then appends each chunk's precomputed `hash`, in index
order, to a fresh hasher and returns its digest. -/
def calculateFileHash (md5 : String → String) (order : List Nat)
    (sources : List (Except FFError Chunk)) : Except FFError String :=
  (promiseAll Chunk order sources).map
    (fun chunks => sparkEnd md5 (chunks.foldl (fun st c => sparkAppend st c.hash) []))

/-- Phase of one per-chunk task of `processChunks` (the promise built
by `processChunk(chunkPromise).finally(...)`).  The phases are the
suspension points of the task: not yet created; awaiting its chunk
source; about to run the `checkCancelled` at the top of the
`executeWithRetry` loop; suspended in `waitIfPaused`; about to run the
re-check after the pause wait; awaiting the processor attempt;
awaiting a back-off delay; suspended forever because `cleanup` dropped
its pause resolver without resolving it; settled. -/
inductive TaskPhase where
  | notStarted
  | awaitingSource
  | checking1
  | pausedWait
  | checking2
  | running
  | delaying
  | orphaned
  | doneOk
  | doneErr (e : FFError)
deriving DecidableEq, Repr

/-- Whether the task's promise has settled (it has then been removed
from the `executing` set by its `finally` handler). -/
def TaskPhase.isDone : TaskPhase → Bool
  | TaskPhase.doneOk => true
  | TaskPhase.doneErr _ => true
  | _ => false

/-- Whether the task has been created (submitted to processing). -/
def TaskPhase.isStarted : TaskPhase → Bool
  | TaskPhase.notStarted => false
  | _ => true

/-- Whether the task is a member of the `executing` set: created and
not yet settled. -/
def TaskPhase.inFlight (p : TaskPhase) : Bool := p.isStarted && !p.isDone

/-- Whether the task has settled successfully. -/
def TaskPhase.isOk : TaskPhase → Bool
  | TaskPhase.doneOk => true
  | _ => false

/-- Whether the task has not settled with a non-cancellation error. -/
def TaskPhase.errOnlyCancelled : TaskPhase → Bool
  | TaskPhase.doneErr FFError.cancelled => true
  | TaskPhase.doneErr _ => false
  | _ => true

instance {ε α : Type} [DecidableEq ε] [DecidableEq α] : DecidableEq (Except ε α) :=
  fun a b =>
    match a, b with
    | Except.ok x, Except.ok y =>
      if h : x = y then isTrue (h ▸ rfl) else isFalse fun hc => h (Except.ok.inj hc)
    | Except.error x, Except.error y =>
      if h : x = y then isTrue (h ▸ rfl) else isFalse fun hc => h (Except.error.inj hc)
    | Except.ok _, Except.error _ => isFalse fun hc => Except.noConfusion hc
    | Except.error _, Except.ok _ => isFalse fun hc => Except.noConfusion hc

/-- Phase of the main loop of `processChunks` (the `mainPromise`
async block): iterating with `i` sources already handled; suspended in
the admission race after submitting source `i`; suspended in the final
`Promise.all`; settled. -/
inductive MainPhase where
  | loop (i : Nat)
  | racing (i : Nat)
  | awaitingAll
  | settled (r : Except FFError Unit)
deriving DecidableEq, Repr

/-- Global state of one `processChunks` run: the chunk-source count
`total`, the `concurrency` option, the two controller flags observable
by the scheduler, the phase of every per-chunk task, the phase of the
main loop and the `completed` progress counter.  (The abort-signal
generations of the controller are not needed at this level: the
processor's reaction to the signal is abstracted into the attempt
outcome events.) -/
structure SchedState where
  total : Nat
  conc : Nat
  cancelled : Bool
  paused : Bool
  tasks : List TaskPhase
  main : MainPhase
  completed : Nat
deriving DecidableEq, Repr

/-- Size of the `executing` set. -/
def inflight (s : SchedState) : Nat := s.tasks.countP TaskPhase.inFlight

/-- Replace the phase of task `i`. -/
def setTask (s : SchedState) (i : Nat) (p : TaskPhase) : SchedState :=
  { s with tasks := s.tasks.set i p }

/-- Effect of `clearTimers` on the task phases: every task awaiting a
back-off delay is force-resolved and loops back to the cancellation
check at the top of the retry loop. -/
def wakeTimers (p : TaskPhase) : TaskPhase :=
  if p = TaskPhase.delaying then TaskPhase.checking1 else p

/-- Effect of releasing the pause resolvers: every task suspended in
`waitIfPaused` proceeds to the re-check of the retry loop. -/
def releaseWaiter (p : TaskPhase) : TaskPhase :=
  if p = TaskPhase.pausedWait then TaskPhase.checking2 else p

/-- Effect of `controller.cleanup()` on a task phase: a task
suspended on the pause is stranded (its resolver is dropped without
being resolved), and a task awaiting a back-off delay is
force-resolved. -/
def settlePhase (p : TaskPhase) : TaskPhase :=
  if p = TaskPhase.pausedWait then TaskPhase.orphaned else wakeTimers p

/-- Settling of `mainPromise` with outcome `r`.  The `finally` block
runs `controller.cleanup()` (clear `paused`, drop the pause resolvers
without resolving them — stranding any task suspended on the pause —
and force-resolve pending delay timers) and clears the `executing`
set; clearing the local set does not affect the tasks themselves,
which keep running. -/
def settleMain (s : SchedState) (r : Except FFError Unit) : SchedState :=
  { s with
    main := MainPhase.settled r
    paused := false
    tasks := s.tasks.map settlePhase }

/-- Events of the scheduler transition system: one event per
suspension-point wake-up of the real code, plus the user lifecycle
calls.  Events that are not enabled in the current state leave the
state unchanged.  The retried closure is
`await processor(chunk, signal); completed++; onProgress?.(...)`, so
an attempt has three possible outcomes: `attemptOk` (everything
succeeded), `attemptFail` (the processor threw, before the
increment), and `progressThrow` (the processor succeeded, `completed`
was incremented, and then the user-supplied `onProgress` callback
threw — the closure rejects after the increment and the retry
executor will re-run it for the same chunk). -/
inductive SchedEv where
  | mainStep
  | raceWake (j : Nat)
  | taskSrcOk (i : Nat)
  | taskSrcFail (i : Nat)
  | taskCheck (i : Nat)
  | attemptOk (i : Nat)
  | attemptFail (i : Nat)
  | progressThrow (i : Nat)
  | timerFire (i : Nat)
  | allOk
  | allErr (j : Nat)
  | pause
  | resume
  | cancel
deriving DecidableEq, Repr

/-- One step of the main loop of `processChunks`: when the loop is
exhausted, fall through to `await Promise.all(executing)`; otherwise
run `controller.checkCancelled()` (rejecting the run when cancelled),
submit source `i` (create its task and add it to `executing`) and, if
the set has reached `concurrency`, suspend in the admission race. -/
def mainLoopStep (s : SchedState) (i : Nat) : SchedState :=
  if s.total ≤ i then { s with main := MainPhase.awaitingAll }
  else if s.cancelled then settleMain s (Except.error FFError.cancelled)
  else
    match s.tasks.get? i with
    | some TaskPhase.notStarted =>
      if s.conc ≤ inflight { s with tasks := s.tasks.set i TaskPhase.awaitingSource } then
        { s with tasks := s.tasks.set i TaskPhase.awaitingSource,
                 main := MainPhase.racing i }
      else
        { s with tasks := s.tasks.set i TaskPhase.awaitingSource,
                 main := MainPhase.loop (i + 1) }
    | _ => s

/-- One step of the main loop: only enabled while iterating. -/
def mainStepFn (s : SchedState) : SchedState :=
  match s.main with
  | MainPhase.loop i => mainLoopStep s i
  | _ => s

/-- Wake-up of the admission race `await Promise.race(executing)`.
The race settles only once a member of its snapshot has settled, and
settled tasks are deleted from the set by their `finally` handler
before the race continuation runs; since the main loop adds no task
while suspended, at wake time the set is strictly below
`concurrency`.  `j` is the settled task whose outcome the race
adopts: on a rejection the main loop rejects with it; on a resolution
it runs the post-race `checkCancelled` and admits the next source. -/
def raceWakeStep (s : SchedState) (i j : Nat) : SchedState :=
  if inflight s < s.conc then
    match s.tasks.get? j with
    | some TaskPhase.doneOk =>
      if s.cancelled then settleMain s (Except.error FFError.cancelled)
      else { s with main := MainPhase.loop (i + 1) }
    | some (TaskPhase.doneErr e) => settleMain s (Except.error e)
    | _ => s
  else s

/-- Wake-up of the admission race: only enabled while racing. -/
def raceWakeFn (s : SchedState) (j : Nat) : SchedState :=
  match s.main with
  | MainPhase.racing i => raceWakeStep s i j
  | _ => s

/-- Advance of task `i` through the checks at the top of the
`executeWithRetry` loop: `checkCancelled()` rejects the task when the
flag is set; otherwise `waitIfPaused()` suspends the task when
paused; the re-check after the wait rejects likewise before the
attempt starts. -/
def taskCheckFn (s : SchedState) (i : Nat) : SchedState :=
  match s.tasks.get? i with
  | some TaskPhase.checking1 =>
    if s.cancelled then setTask s i (TaskPhase.doneErr FFError.cancelled)
    else if s.paused then setTask s i TaskPhase.pausedWait
    else setTask s i TaskPhase.checking2
  | some TaskPhase.checking2 =>
    if s.cancelled then setTask s i (TaskPhase.doneErr FFError.cancelled)
    else setTask s i TaskPhase.running
  | _ => s

/-- One step of the scheduler transition system. -/
def step (s : SchedState) (e : SchedEv) : SchedState :=
  match e with
  | SchedEv.mainStep => mainStepFn s
  | SchedEv.raceWake j => raceWakeFn s j
  | SchedEv.taskSrcOk i =>
    if s.tasks.get? i = some TaskPhase.awaitingSource then setTask s i TaskPhase.checking1
    else s
  | SchedEv.taskSrcFail i =>
    if s.tasks.get? i = some TaskPhase.awaitingSource then
      setTask s i (TaskPhase.doneErr (FFError.srcFailed i))
    else s
  | SchedEv.taskCheck i => taskCheckFn s i
  | SchedEv.attemptOk i =>
    if s.tasks.get? i = some TaskPhase.running then
      { s with tasks := s.tasks.set i TaskPhase.doneOk, completed := s.completed + 1 }
    else s
  | SchedEv.attemptFail i =>
    if s.tasks.get? i = some TaskPhase.running then setTask s i TaskPhase.delaying
    else s
  | SchedEv.progressThrow i =>
    if s.tasks.get? i = some TaskPhase.running then
      { s with tasks := s.tasks.set i TaskPhase.delaying, completed := s.completed + 1 }
    else s
  | SchedEv.timerFire i =>
    if s.tasks.get? i = some TaskPhase.delaying then setTask s i TaskPhase.checking1
    else s
  | SchedEv.allOk =>
    match s.main with
    | MainPhase.awaitingAll =>
      if s.tasks.all TaskPhase.isOk then settleMain s (Except.ok ())
      else s
    | _ => s
  | SchedEv.allErr j =>
    match s.main with
    | MainPhase.awaitingAll =>
      match s.tasks.get? j with
      | some (TaskPhase.doneErr e) => settleMain s (Except.error e)
      | _ => s
    | _ => s
  | SchedEv.pause =>
    { s with paused := true, tasks := s.tasks.map wakeTimers }
  | SchedEv.resume =>
    if s.paused then
      { s with paused := false,
               tasks := (s.tasks.map wakeTimers).map releaseWaiter }
    else s
  | SchedEv.cancel =>
    let s1 : SchedState := { s with cancelled := true, tasks := s.tasks.map wakeTimers }
    if s.paused then
      { s1 with paused := false, tasks := s1.tasks.map releaseWaiter }
    else s1

/-- Initial state of a `processChunks` run over `n` chunk sources
with concurrency `c`. -/
def initSched (n c : Nat) : SchedState :=
  ⟨n, c, false, false, List.replicate n TaskPhase.notStarted, MainPhase.loop 0, 0⟩

/-- Run the scheduler from an arbitrary state through a list of
events. -/
def runFrom (s : SchedState) (evs : List SchedEv) : SchedState :=
  evs.foldl step s

/-- Run a fresh `processChunks` over `n` sources with concurrency `c`
through a list of events. -/
def runSched (n c : Nat) (evs : List SchedEv) : SchedState :=
  runFrom (initSched n c) evs

/-- Number of tasks settled successfully. -/
def countOk (s : SchedState) : Nat := s.tasks.countP TaskPhase.isOk

/-- Number of chunk sources submitted to processing so far. -/
def startedCount (s : SchedState) : Nat := s.tasks.countP TaskPhase.isStarted

/-- Whether no task has settled with a non-cancellation error. -/
def taskErrsCancelled (s : SchedState) : Bool :=
  s.tasks.all TaskPhase.errOnlyCancelled

/-- Whether the main loop still has a cancellation checkpoint ahead:
it is in its submission loop with sources left, or suspended in the
admission race. -/
def beforeAllB (s : SchedState) : Bool :=
  match s.main with
  | MainPhase.loop i => decide (i < s.total)
  | MainPhase.racing _ => true
  | _ => false

/-- Whether an event is not a chunk-source failure. -/
def SchedEv.notSrcFail : SchedEv → Bool
  | SchedEv.taskSrcFail _ => false
  | _ => true

/-- Whether an event is not a post-increment `onProgress` throw. -/
def SchedEv.noProgressThrow : SchedEv → Bool
  | SchedEv.progressThrow _ => false
  | _ => true

theorem executeWithRetryAux_failIters (T : Type) (es : List FFError) :
    ∀ k, executeWithRetryAux T k (failIters T es)
      = (none, (List.range es.length).map (fun j => min (1000 * (k + j)) 5000)) := by
  induction es with
  | nil => intro k; rfl
  | cons e es ih =>
    intro k
    have h := ih (k + 1)
    simp only [failIters, List.map_cons] at h ⊢
    rw [executeWithRetryAux, if_neg (by simp), if_neg (by simp)]
    rw [h]
    refine Prod.ext rfl ?_
    simp only [List.length_cons, List.range_succ_eq_map, List.map_cons, List.map_map]
    refine congrArg₂ List.cons (by simp) ?_
    apply List.map_congr_left
    intro j _
    simp only [Function.comp_apply]
    congr 2
    omega

/-- Claim C3: for an operation that fails on every attempt,
`executeWithRetry` requests back-off delays of
`min(1000 * attemptNumber, 5000)` milliseconds, the attempt counter
starting at 0 and incrementing once per failure, which produces the
delay sequence 0, 1000, 2000, 3000, 4000, 5000, 5000, ... capped at
5000 ms. -/
theorem c3_retry_delay_sequence :
    (∀ (T : Type) (es : List FFError),
      retryDelays T (failIters T es)
        = (List.range es.length).map (fun j => min (1000 * j) 5000))
    ∧ (∀ (T : Type),
      retryDelays T (failIters T (List.replicate 8 (FFError.procFailed 0)))
        = [0, 1000, 2000, 3000, 4000, 5000, 5000, 5000]) := by
  constructor
  · intro T es
    unfold retryDelays
    rw [executeWithRetryAux_failIters]
    simp
  · intro T
    unfold retryDelays
    rw [executeWithRetryAux_failIters]
    rfl

/-- Invariant for the concurrency bound: the `executing` set stays
within `concurrency`, strictly below it whenever the main loop is at
its submission point. -/
def InvC (s : SchedState) : Prop :=
  inflight s ≤ s.conc ∧ ∀ i, s.main = MainPhase.loop i → inflight s < s.conc

/-- Invariant for the post-cancel behaviour: the cancelled flag is
set, no task has settled with a non-cancellation error, and the main
loop either still has a checkpoint ahead or has already settled with
the `Cancelled` rejection. -/
def QC (s : SchedState) : Prop :=
  s.cancelled = true ∧ taskErrsCancelled s = true
  ∧ (beforeAllB s = true ∨ s.main = MainPhase.settled (Except.error FFError.cancelled))

theorem get?_set_some {α : Type} (l : List α) (b : α) :
    ∀ (i : Nat) (a : α), l.get? i = some a → (l.set i b).get? i = some b := by
  induction l with
  | nil => intro i a h; simp at h
  | cons x xs ih =>
    intro i a h
    cases i with
    | zero => rfl
    | succ i =>
      simp only [List.set_cons_succ, List.get?_cons_succ] at h ⊢
      exact ih i a h

theorem countP_set_some {α : Type} (p : α → Bool) (b : α) :
    ∀ (l : List α) (i : Nat) (a : α), l.get? i = some a →
      (l.set i b).countP p + (if p a then 1 else 0)
        = l.countP p + (if p b then 1 else 0) := by
  intro l
  induction l with
  | nil => intro i a h; simp at h
  | cons x xs ih =>
    intro i a h
    cases i with
    | zero =>
      simp only [List.get?_cons_zero, Option.some.injEq] at h
      subst h
      simp only [List.set_cons_zero, List.countP_cons]
      omega
    | succ i =>
      simp only [List.get?_cons_succ] at h
      simp only [List.set_cons_succ, List.countP_cons]
      have := ih i a h
      omega

theorem countP_map_of_pres {α : Type} (p : α → Bool) (f : α → α)
    (hf : ∀ x, p (f x) = p x) :
    ∀ l : List α, (l.map f).countP p = l.countP p := by
  intro l
  induction l with
  | nil => rfl
  | cons x xs ih => simp only [List.map_cons, List.countP_cons, ih, hf]

/-- Claim C4: `executeWithRetry`, before every attempt, fails with
`Cancelled` if the token is cancelled, otherwise waits while paused
and then re-checks cancellation; every failure thrown by the attempted
operation itself is caught and retried, retries being unbounded, so
the only error that ever escapes `executeWithRetry` is the `Cancelled`
error. -/
theorem c4_only_cancelled_escapes :
    (∀ (T : Type) (k : Nat) (it : RetryIter T) (rest : List (RetryIter T)),
      it.cancelledAtCheck = true →
        (executeWithRetryAux T k (it :: rest)).1 = some (Except.error FFError.cancelled))
    ∧ (∀ (T : Type) (k : Nat) (it : RetryIter T) (rest : List (RetryIter T)),
      it.cancelledAtCheck = false → it.cancelledAfterPause = true →
        (executeWithRetryAux T k (it :: rest)).1 = some (Except.error FFError.cancelled))
    ∧ (∀ (T : Type) (k : Nat) (it : RetryIter T) (rest : List (RetryIter T)) (e : FFError),
      it.cancelledAtCheck = false → it.cancelledAfterPause = false →
      it.attempt = Except.error e →
        (executeWithRetryAux T k (it :: rest)).1 = (executeWithRetryAux T (k + 1) rest).1)
    ∧ (∀ (T : Type) (k : Nat) (iters : List (RetryIter T)) (r : FFError),
      (executeWithRetryAux T k iters).1 = some (Except.error r) → r = FFError.cancelled)
    ∧ (∀ (T : Type) (k : Nat) (es : List FFError),
      (executeWithRetryAux T k (failIters T es)).1 = none)
    ∧ (∀ (s : SchedState) (i : Nat),
      s.tasks.get? i = some TaskPhase.checking1 → s.cancelled = false →
      s.paused = true →
        (step s (SchedEv.taskCheck i)).tasks.get? i = some TaskPhase.pausedWait) := by
  refine ⟨?_, ?_, ?_, ?_, ?_, ?_⟩
  · intro T k it rest h
    unfold executeWithRetryAux
    rw [h]
    simp
  · intro T k it rest h1 h2
    unfold executeWithRetryAux
    rw [h1, h2]
    simp
  · intro T k it rest e h1 h2 h3
    conv_lhs => rw [executeWithRetryAux]
    rw [h1, h2, h3]
    simp
  · intro T k iters
    induction iters generalizing k with
    | nil => intro r h; simp [executeWithRetryAux] at h
    | cons it rest ih =>
      intro r h
      unfold executeWithRetryAux at h
      by_cases h1 : it.cancelledAtCheck
      · rw [if_pos h1] at h
        simp only [Option.some.injEq, Except.error.injEq] at h
        exact h.symm
      · rw [if_neg h1] at h
        by_cases h2 : it.cancelledAfterPause
        · rw [if_pos h2] at h
          simp only [Option.some.injEq, Except.error.injEq] at h
          exact h.symm
        · rw [if_neg h2] at h
          cases ha : it.attempt with
          | ok v => rw [ha] at h; simp at h
          | error e => rw [ha] at h; exact ih (k + 1) r h
  · intro T k es
    rw [executeWithRetryAux_failIters]
  · intro s i h1 h2 h3
    simp only [step, taskCheckFn, h1, h2, h3, Bool.false_eq_true, if_neg, if_pos,
      not_false_eq_true, ite_true, ite_false]
    exact get?_set_some s.tasks TaskPhase.pausedWait i TaskPhase.checking1 h1

/-- Closed witness for claim C4's theorem at concrete inputs. -/
theorem c4_only_cancelled_escapes_witness :
    ((⟨true, false, Except.ok 0⟩ : RetryIter Nat).cancelledAtCheck = true)
    ∧ (executeWithRetryAux Nat 0 [⟨true, false, Except.ok 0⟩]).1
        = some (Except.error FFError.cancelled) :=
  ⟨rfl, c4_only_cancelled_escapes.1 Nat 0 ⟨true, false, Except.ok 0⟩ [] rfl⟩

theorem cancelled_applyOp (s : CtrlState) (op : CtrlOp) :
    s.cancelled = true → (applyOp s op).cancelled = true := by
  intro h
  cases op with
  | pause => simpa [applyOp, CtrlState.pause] using h
  | resume =>
    simp only [applyOp, CtrlState.resume]
    split <;> simpa using h
  | cancel =>
    simp only [applyOp, CtrlState.cancel]
    split <;> rfl
  | cleanup => simpa [applyOp, CtrlState.cleanup] using h
  | delayReq ms => simpa [applyOp, CtrlState.delay] using h
  | tick => simpa [applyOp, CtrlState.tick] using h

theorem cancelled_applyOps (ops : List CtrlOp) :
    ∀ s : CtrlState, s.cancelled = true → (applyOps s ops).cancelled = true := by
  induction ops with
  | nil => intro s h; exact h
  | cons op rest ih =>
    intro s h
    exact ih (applyOp s op) (cancelled_applyOp s op h)

/-- Claim C9: cancellation of a `TaskController` is monotone: once
`cancel()` has been called, no subsequent operation (pause, resume,
cleanup, delays, time passing, or another cancel) ever clears the
cancelled flag, so every later `checkCancelled()` throws the
`Cancelled` error and every later `executeWithRetry` run on the token
rejects with `Cancelled` without invoking its operation (its outcome
does not depend on the attempted operation at all). -/
theorem c9_cancel_monotone :
    ∀ (s : CtrlState) (ops : List CtrlOp), s.cancelled = true →
      (applyOps s ops).cancelled = true
      ∧ CtrlState.checkCancelled (applyOps s ops) = Except.error FFError.cancelled
      ∧ (∀ (T : Type) (p : Bool) (att : Except FFError T) (rest : List (RetryIter T)),
          executeWithRetry T (⟨(applyOps s ops).cancelled, p, att⟩ :: rest)
            = some (Except.error FFError.cancelled)) := by
  intro s ops h
  have hc := cancelled_applyOps ops s h
  refine ⟨hc, ?_, ?_⟩
  · unfold CtrlState.checkCancelled
    rw [hc]
    rfl
  · intro T p att rest
    unfold executeWithRetry executeWithRetryAux
    rw [hc]
    simp

/-- Closed witness for claim C9's theorem: a freshly cancelled
controller stays cancelled across a pause, a resume, a delay request,
a tick and a cleanup. -/
theorem c9_cancel_monotone_witness :
    (CtrlState.cancel CtrlState.initCtrl).cancelled = true
    ∧ (applyOps (CtrlState.cancel CtrlState.initCtrl)
        [CtrlOp.pause, CtrlOp.resume, CtrlOp.delayReq 3000, CtrlOp.tick,
         CtrlOp.cleanup]).cancelled = true :=
  ⟨rfl, (c9_cancel_monotone (CtrlState.cancel CtrlState.initCtrl)
      [CtrlOp.pause, CtrlOp.resume, CtrlOp.delayReq 3000, CtrlOp.tick,
       CtrlOp.cleanup] rfl).1⟩

theorem genBound_applyOp (s : CtrlState) (op : CtrlOp) :
    genBound s → genBound (applyOp s op) := by
  intro h
  cases op with
  | pause =>
    intro g hg
    simp only [applyOp, CtrlState.pause, List.mem_cons] at hg ⊢
    cases hg with
    | inl h1 => omega
    | inr h1 => exact h g h1
  | resume =>
    simp only [applyOp, CtrlState.resume]
    split
    · intro g hg
      simp only [List.mem_cons] at hg ⊢
      have := h g hg
      omega
    · exact h
  | cancel =>
    intro g hg
    have hg2 : g ∈ s.gen :: s.firedGens := by
      simp only [applyOp, CtrlState.cancel] at hg
      split at hg <;> exact hg
    have hgen : (applyOp s CtrlOp.cancel).gen = s.gen := by
      simp only [applyOp, CtrlState.cancel]
      split <;> rfl
    rw [hgen]
    rcases List.mem_cons.mp hg2 with h1 | h1
    · omega
    · exact h g h1
  | cleanup => exact h
  | delayReq ms => exact h
  | tick => exact h

theorem genBound_initCtrl : genBound CtrlState.initCtrl := by
  intro g hg
  simp [CtrlState.initCtrl] at hg

/-- Claim C6: `resume()` on the token is a no-op when not paused; when
paused, it clears the paused flag, mints a fresh un-fired interruption
handle (the previously fired handles stay fired, so operations that
already observed them remain interrupted, while work started after the
resume observes the new un-fired handle), and releases all waiters
suspended on the pause. -/
theorem c6_resume :
    ∀ s : CtrlState, genBound s →
      (s.paused = false → CtrlState.resume s = s)
      ∧ (s.paused = true →
          (CtrlState.resume s).paused = false
          ∧ CtrlState.signal (CtrlState.resume s) = s.gen + 1
          ∧ CtrlState.signalFired (CtrlState.resume s)
              (CtrlState.signal (CtrlState.resume s)) = false
          ∧ (∀ g, CtrlState.signalFired s g = true →
              CtrlState.signalFired (CtrlState.resume s) g = true)
          ∧ (CtrlState.resume s).pauseResolvers = 0) := by
  intro s hgb
  constructor
  · intro hp
    unfold CtrlState.resume
    rw [hp]
    rfl
  · intro hp
    have hfresh : ¬ (s.gen + 1 ∈ s.firedGens) := by
      intro hmem
      exact absurd (hgb (s.gen + 1) hmem) (by omega)
    unfold CtrlState.resume CtrlState.signal CtrlState.signalFired
    rw [hp]
    simp [hfresh]

/-- Closed witness for claim C6's theorem: a paused fresh controller,
after resume, is unpaused, exposes generation 1 as its handle, that
handle is un-fired, the handle fired by the pause stays fired, and the
pause waiters are released. -/
theorem c6_resume_witness :
    (CtrlState.pause CtrlState.initCtrl).paused = true
    ∧ (CtrlState.resume (CtrlState.pause CtrlState.initCtrl)).paused = false
    ∧ CtrlState.signal (CtrlState.resume (CtrlState.pause CtrlState.initCtrl)) = 1
    ∧ CtrlState.signalFired (CtrlState.resume (CtrlState.pause CtrlState.initCtrl)) 1 = false
    ∧ CtrlState.signalFired (CtrlState.resume (CtrlState.pause CtrlState.initCtrl)) 0 = true := by
  have hgb : genBound (CtrlState.pause CtrlState.initCtrl) :=
    genBound_applyOp CtrlState.initCtrl CtrlOp.pause genBound_initCtrl
  have h := (c6_resume (CtrlState.pause CtrlState.initCtrl) hgb).2 rfl
  refine ⟨rfl, h.1, h.2.1, h.2.2.1, ?_⟩
  exact h.2.2.2.1 0 (by decide)

theorem timers_mem_tick (s : CtrlState) (id r : Nat)
    (h : (id, r) ∈ s.timers) (hr : 1 < r) :
    (id, r - 1) ∈ (CtrlState.tick s).timers := by
  unfold CtrlState.tick
  simp only [List.mem_filter, List.mem_map]
  refine ⟨⟨(id, r), h, rfl⟩, ?_⟩
  simp only [bne_iff_ne, ne_eq]
  omega

theorem timers_mem_ticksN :
    ∀ (k : Nat) (s : CtrlState) (id r : Nat),
      (id, r) ∈ s.timers → k < r →
      (id, r - k) ∈ (CtrlState.ticksN k s).timers := by
  intro k
  induction k with
  | zero => intro s id r h _; simpa using h
  | succ k ih =>
    intro s id r h hk
    have h1 := timers_mem_tick s id r h (by omega)
    have h2 := ih (CtrlState.tick s) id (r - 1) h1 (by omega)
    have h3 : r - 1 - k = r - (k + 1) := by omega
    rw [h3] at h2
    exact h2

theorem timers_gone_tick (s : CtrlState) (id : Nat)
    (hb : ∀ pr ∈ s.timers, pr.1 = id → pr.2 ≤ 1) :
    ∀ r, (id, r) ∉ (CtrlState.tick s).timers := by
  intro r hmem
  unfold CtrlState.tick at hmem
  simp only [List.mem_filter, List.mem_map] at hmem
  obtain ⟨⟨p, hp, hpe⟩, hpred⟩ := hmem
  simp only [Prod.mk.injEq] at hpe
  obtain ⟨h1, h2⟩ := hpe
  have h3 := hb p hp h1
  simp only [bne_iff_ne, ne_eq] at hpred
  omega

theorem timers_gone_ticksN :
    ∀ (k : Nat) (s : CtrlState) (id : Nat), 1 ≤ k →
      (∀ pr ∈ s.timers, pr.1 = id → pr.2 ≤ k) →
      ∀ r, (id, r) ∉ (CtrlState.ticksN k s).timers := by
  intro k
  induction k with
  | zero => intro s id h; exact absurd h (by omega)
  | succ k ih =>
    intro s id _ hb r
    by_cases hk : 1 ≤ k
    · have hb2 : ∀ pr ∈ (CtrlState.tick s).timers, pr.1 = id → pr.2 ≤ k := by
        intro pr hpr hid
        unfold CtrlState.tick at hpr
        simp only [List.mem_filter, List.mem_map] at hpr
        obtain ⟨⟨p, hp, hpe⟩, _⟩ := hpr
        subst hpe
        have := hb p hp hid
        simp only
        omega
      exact ih (CtrlState.tick s) id hk hb2 r
    · have hk0 : k = 0 := by omega
      subst hk0
      exact timers_gone_tick s id hb r

/-- Claim C10: `cancel()` and `pause()` force-resolve only the delays
pending at the instant they are called; a `delay(ms)` that begins
after cancellation has already been requested registers a full-length
timer which, under the passage of time alone, stays pending for the
whole `ms` duration and fires only then; consequently a retry
back-off started after `cancel()` requests and waits its entire
`min(1000*k, 5000)` delay before the next cancellation check fails
the run. -/
theorem c10_delay_after_cancel :
    ∀ (s : CtrlState) (ms : Nat), s.cancelled = true → 0 < ms →
      (∀ pr ∈ s.timers, pr.1 ≠ s.nextTimerId) →
      ((s.nextTimerId, ms) ∈ ((CtrlState.delay ms s).1).timers)
      ∧ (∀ k, k < ms →
          (s.nextTimerId, ms - k)
            ∈ (CtrlState.ticksN k ((CtrlState.delay ms s).1)).timers)
      ∧ (∀ r, (s.nextTimerId, r) ∉ (CtrlState.ticksN ms ((CtrlState.delay ms s).1)).timers)
      ∧ (CtrlState.cancel s).timers = []
      ∧ (CtrlState.pause s).timers = []
      ∧ (∀ (T : Type) (k : Nat) (e : FFError) (b : Bool) (a : Except FFError T),
          executeWithRetryAux T k [⟨false, false, Except.error e⟩, ⟨true, b, a⟩]
            = (some (Except.error FFError.cancelled), [min (1000 * k) 5000])) := by
  intro s ms _ hms hfresh
  have hmem : (s.nextTimerId, ms) ∈ ((CtrlState.delay ms s).1).timers := by
    unfold CtrlState.delay
    simp
  refine ⟨hmem, ?_, ?_, ?_, rfl, ?_⟩
  · intro k hk
    exact timers_mem_ticksN k ((CtrlState.delay ms s).1) s.nextTimerId ms hmem hk
  · intro r
    apply timers_gone_ticksN ms ((CtrlState.delay ms s).1) s.nextTimerId hms
    intro pr hpr hid
    unfold CtrlState.delay at hpr
    simp only [List.mem_append, List.mem_singleton] at hpr
    cases hpr with
    | inl h1 => exact absurd hid (hfresh pr h1)
    | inr h1 => subst h1; rfl
  · unfold CtrlState.cancel
    simp only
    split <;> rfl
  · intro T k e b a
    rfl

/-- Closed witness for claim C10's theorem: on a freshly cancelled
controller, a 2 ms delay registers a full 2 ms timer. -/
theorem c10_delay_after_cancel_witness :
    (CtrlState.cancel CtrlState.initCtrl).cancelled = true
    ∧ ((CtrlState.cancel CtrlState.initCtrl).nextTimerId, 2)
        ∈ ((CtrlState.delay 2 (CtrlState.cancel CtrlState.initCtrl)).1).timers :=
  ⟨rfl, (c10_delay_after_cancel (CtrlState.cancel CtrlState.initCtrl) 2 rfl
      (by decide) (by decide)).1⟩

theorem firstErrProbe_map_ok (α : Type) (cs : List α) (i : Nat) :
    firstErrProbe α (cs.map Except.ok) i = none := by
  unfold firstErrProbe
  rw [List.get?_map]
  cases cs.get? i <;> rfl

theorem findSome?_probe_map_ok (α : Type) (cs : List α) :
    ∀ order : List Nat,
      order.findSome? (firstErrProbe α (cs.map Except.ok)) = none := by
  intro order
  induction order with
  | nil => rfl
  | cons i rest ih =>
    rw [List.findSome?_cons, firstErrProbe_map_ok]
    exact ih

theorem allResolved_map_ok (α : Type) :
    ∀ cs : List α, allResolved α (cs.map Except.ok) = Except.ok cs := by
  intro cs
  induction cs with
  | nil => rfl
  | cons c rest ih =>
    simp only [List.map_cons, allResolved, ih]
    rfl

/-- Claim C8: `collectChunks` awaits every chunk source and returns
the resolved chunks in source-index order regardless of the order in
which the sources resolve, and fails fatally if any single source
fails. -/
theorem c8_collect_order_preserving :
    (∀ (cs : List Chunk) (order : List Nat),
        collectChunks order (cs.map Except.ok) = Except.ok cs)
    ∧ (∀ (sources : List (Except FFError Chunk)) (order : List Nat) (i : Nat) (e : FFError),
        i ∈ order → sources.get? i = some (Except.error e) →
        ∃ e2, collectChunks order sources = Except.error e2) := by
  constructor
  · intro cs order
    unfold collectChunks promiseAll
    rw [findSome?_probe_map_ok, allResolved_map_ok]
  · intro sources order i e hi hsrc
    unfold collectChunks promiseAll
    cases hf : order.findSome? (firstErrProbe Chunk sources) with
    | some e2 => exact ⟨e2, rfl⟩
    | none =>
      exfalso
      have hall := List.findSome?_eq_none.mp hf i hi
      unfold firstErrProbe at hall
      rw [hsrc] at hall
      simp at hall

/-- Closed witness for claim C8's theorem: three chunks resolve in the
settle order 2,0,1 yet are collected in index order, and a failing
source makes the collection fail. -/
theorem c8_collect_order_preserving_witness :
    collectChunks [2, 0, 1]
      ([⟨[], "h0", 0, 0, 1⟩, ⟨[], "h1", 1, 1, 2⟩, ⟨[], "h2", 2, 2, 3⟩].map Except.ok)
      = Except.ok [⟨[], "h0", 0, 0, 1⟩, ⟨[], "h1", 1, 1, 2⟩, ⟨[], "h2", 2, 2, 3⟩]
    ∧ ∃ e2, collectChunks [0, 1] [Except.ok ⟨[], "h0", 0, 0, 1⟩,
        Except.error (FFError.srcFailed 1)] = Except.error e2 :=
  ⟨c8_collect_order_preserving.1 _ [2, 0, 1],
   c8_collect_order_preserving.2 _ [0, 1] 1 (FFError.srcFailed 1) (by decide) rfl⟩

theorem foldl_sparkAppend (cs : List Chunk) :
    ∀ acc : List String,
      cs.foldl (fun st c => sparkAppend st c.hash) acc = acc ++ cs.map Chunk.hash := by
  induction cs with
  | nil => intro acc; simp
  | cons c rest ih =>
    intro acc
    rw [List.foldl_cons, ih]
    simp [sparkAppend]

/-- Claim C7: `calculateFileHash` awaits every chunk source and then
feeds each chunk's precomputed per-chunk hash, in chunk-index order,
into a whole-file hash accumulator, returning its final digest: for
chunks with hashes h0,...,hN-1 it returns the digest of their
concatenation, deterministically and independently of the order in
which the sources resolve. -/
theorem c7_file_hash :
    ∀ (md5 : String → String) (cs : List Chunk) (order : List Nat),
      calculateFileHash md5 order (cs.map Except.ok)
        = Except.ok (md5 (String.join (cs.map Chunk.hash))) := by
  intro md5 cs order
  unfold calculateFileHash promiseAll
  rw [findSome?_probe_map_ok, allResolved_map_ok]
  simp only [Except.map, sparkEnd, foldl_sparkAppend, List.nil_append]

theorem pres_wakeTimers (p : TaskPhase → Bool)
    (h : p TaskPhase.checking1 = p TaskPhase.delaying) :
    ∀ x, p (wakeTimers x) = p x := by
  intro x
  unfold wakeTimers
  split
  · next hx => rw [hx]; exact h
  · rfl

theorem pres_releaseWaiter (p : TaskPhase → Bool)
    (h : p TaskPhase.checking2 = p TaskPhase.pausedWait) :
    ∀ x, p (releaseWaiter x) = p x := by
  intro x
  unfold releaseWaiter
  split
  · next hx => rw [hx]; exact h
  · rfl

theorem pres_settlePhase (p : TaskPhase → Bool)
    (h1 : p TaskPhase.orphaned = p TaskPhase.pausedWait)
    (h2 : p TaskPhase.checking1 = p TaskPhase.delaying) :
    ∀ x, p (settlePhase x) = p x := by
  intro x
  unfold settlePhase
  split
  · next hx => rw [hx]; exact h1
  · exact pres_wakeTimers p h2 x

theorem all_map_of_pres {α : Type} (p : α → Bool) (f : α → α)
    (hf : ∀ x, p (f x) = p x) :
    ∀ l : List α, (l.map f).all p = l.all p := by
  intro l
  induction l with
  | nil => rfl
  | cons x xs ih => simp [List.all_cons, hf, ih]

theorem all_set_of {α : Type} (p : α → Bool) (b : α) :
    ∀ (l : List α) (i : Nat), l.all p = true → p b = true → (l.set i b).all p = true := by
  intro l
  induction l with
  | nil => intro i _ _; simp
  | cons x xs ih =>
    intro i h hb
    simp only [List.all_cons, Bool.and_eq_true] at h
    cases i with
    | zero => simp only [List.set_cons_zero, List.all_cons, Bool.and_eq_true]; exact ⟨hb, h.2⟩
    | succ i =>
      simp only [List.set_cons_succ, List.all_cons, Bool.and_eq_true]
      exact ⟨h.1, ih i h.2 hb⟩

theorem all_get?_of {α : Type} (p : α → Bool) (l : List α) (j : Nat) (x : α)
    (hall : l.all p = true) (hget : l.get? j = some x) : p x = true :=
  List.all_eq_true.mp hall x (List.get?_mem hget)

theorem countP_replicate_false {α : Type} (p : α → Bool) (a : α) (h : p a = false) :
    ∀ n, (List.replicate n a).countP p = 0 := by
  intro n
  induction n with
  | zero => rfl
  | succ n ih => simp [List.replicate_succ, List.countP_cons, h, ih]

theorem inflight_settleMain (s : SchedState) (r : Except FFError Unit) :
    inflight (settleMain s r) = inflight s :=
  countP_map_of_pres TaskPhase.inFlight settlePhase
    (pres_settlePhase TaskPhase.inFlight rfl rfl) s.tasks

theorem conc_step (s : SchedState) (e : SchedEv) : (step s e).conc = s.conc := by
  cases e <;>
    simp only [step, mainStepFn, mainLoopStep, raceWakeFn, raceWakeStep, taskCheckFn,
      setTask, settleMain] <;>
    (repeat' split) <;> rfl

theorem conc_runFrom (evs : List SchedEv) :
    ∀ s : SchedState, (runFrom s evs).conc = s.conc := by
  induction evs with
  | nil => intro s; rfl
  | cons e rest ih =>
    intro s
    show (runFrom (step s e) rest).conc = s.conc
    rw [ih (step s e), conc_step]

theorem inFlight_doneErr (e : FFError) :
    TaskPhase.inFlight (TaskPhase.doneErr e) = false := rfl

theorem invC_setTask (s : SchedState) (i : Nat) (a b : TaskPhase)
    (hget : s.tasks.get? i = some a)
    (hle : TaskPhase.inFlight b = true → TaskPhase.inFlight a = true)
    (h : InvC s) : InvC (setTask s i b) := by
  obtain ⟨h1, h2⟩ := h
  have h1' : s.tasks.countP TaskPhase.inFlight ≤ s.conc := h1
  have hfl := countP_set_some TaskPhase.inFlight b s.tasks i a hget
  have hd : (s.tasks.set i b).countP TaskPhase.inFlight
      ≤ s.tasks.countP TaskPhase.inFlight := by
    cases hb : TaskPhase.inFlight b with
    | false =>
      cases ha : TaskPhase.inFlight a with
      | false => rw [hb, ha] at hfl; simp at hfl; omega
      | true => rw [hb, ha] at hfl; simp at hfl; omega
    | true =>
      have ha := hle hb
      rw [hb, ha] at hfl
      simp at hfl
      omega
  refine ⟨?_, ?_⟩
  · show (s.tasks.set i b).countP TaskPhase.inFlight ≤ s.conc
    omega
  · intro i' hm
    have hs : s.tasks.countP TaskPhase.inFlight < s.conc := h2 i' hm
    show (s.tasks.set i b).countP TaskPhase.inFlight < s.conc
    omega

theorem invC_settleMain (s : SchedState) (r : Except FFError Unit)
    (h : InvC s) : InvC (settleMain s r) := by
  refine ⟨?_, ?_⟩
  · show inflight (settleMain s r) ≤ s.conc
    rw [inflight_settleMain]
    exact h.1
  · intro i' hm
    exact MainPhase.noConfusion hm

theorem invC_of_eq (s s' : SchedState) (hfl : inflight s' = inflight s)
    (hconc : s'.conc = s.conc) (hmain : s'.main = s.main)
    (h : InvC s) : InvC s' := by
  obtain ⟨h1, h2⟩ := h
  refine ⟨by rw [hfl, hconc]; exact h1, ?_⟩
  intro i hm
  rw [hfl, hconc]
  exact h2 i (by rw [← hmain]; exact hm)

theorem invC_mainLoopStep (s : SchedState) (i : Nat) (hm : s.main = MainPhase.loop i)
    (h : InvC s) : InvC (mainLoopStep s i) := by
  obtain ⟨h1, h2⟩ := h
  unfold mainLoopStep
  by_cases hni : s.total ≤ i
  · rw [if_pos hni]
    exact ⟨h1, fun i' hmm => MainPhase.noConfusion hmm⟩
  · rw [if_neg hni]
    by_cases hcc : s.cancelled = true
    · rw [if_pos hcc]
      exact invC_settleMain s _ ⟨h1, h2⟩
    · rw [if_neg hcc]
      cases hg : s.tasks.get? i with
      | none => exact ⟨h1, h2⟩
      | some a =>
        cases a <;> try exact ⟨h1, h2⟩
        have hsp : (s.tasks.set i TaskPhase.awaitingSource).countP TaskPhase.inFlight
            = s.tasks.countP TaskPhase.inFlight + 1 := by
          have hfl := countP_set_some TaskPhase.inFlight TaskPhase.awaitingSource
            s.tasks i TaskPhase.notStarted hg
          simpa using hfl
        have hlt : s.tasks.countP TaskPhase.inFlight < s.conc := h2 i hm
        by_cases hcn : s.conc
            ≤ inflight { s with tasks := s.tasks.set i TaskPhase.awaitingSource }
        · rw [if_pos hcn]
          refine ⟨?_, ?_⟩
          · show (s.tasks.set i TaskPhase.awaitingSource).countP TaskPhase.inFlight ≤ s.conc
            omega
          · intro i' hmm
            exact MainPhase.noConfusion hmm
        · rw [if_neg hcn]
          have hcn' : ¬ s.conc
              ≤ (s.tasks.set i TaskPhase.awaitingSource).countP TaskPhase.inFlight := hcn
          refine ⟨?_, ?_⟩
          · show (s.tasks.set i TaskPhase.awaitingSource).countP TaskPhase.inFlight ≤ s.conc
            omega
          · intro i' _
            show (s.tasks.set i TaskPhase.awaitingSource).countP TaskPhase.inFlight < s.conc
            omega

theorem invC_raceWakeStep (s : SchedState) (i j : Nat) (h : InvC s) :
    InvC (raceWakeStep s i j) := by
  obtain ⟨h1, h2⟩ := h
  unfold raceWakeStep
  by_cases hr : inflight s < s.conc
  · rw [if_pos hr]
    cases hg : s.tasks.get? j with
    | none => exact ⟨h1, h2⟩
    | some a =>
      cases a <;> try exact ⟨h1, h2⟩
      · by_cases hcc : s.cancelled = true
        · rw [if_pos hcc]
          exact invC_settleMain s _ ⟨h1, h2⟩
        · rw [if_neg hcc]
          exact ⟨h1, fun i' _ => hr⟩
      · exact invC_settleMain s _ ⟨h1, h2⟩
  · rw [if_neg hr]
    exact ⟨h1, h2⟩

theorem invC_taskCheckFn (s : SchedState) (i : Nat) (h : InvC s) :
    InvC (taskCheckFn s i) := by
  unfold taskCheckFn
  cases hg : s.tasks.get? i with
  | none => exact h
  | some a =>
    cases a <;> try exact h
    · show InvC (if s.cancelled = true
        then setTask s i (TaskPhase.doneErr FFError.cancelled)
        else if s.paused = true then setTask s i TaskPhase.pausedWait
        else setTask s i TaskPhase.checking2)
      by_cases hcc : s.cancelled = true
      · rw [if_pos hcc]
        exact invC_setTask s i TaskPhase.checking1 (TaskPhase.doneErr FFError.cancelled)
          hg (fun hx => absurd hx (by decide)) h
      · rw [if_neg hcc]
        by_cases hp : s.paused = true
        · rw [if_pos hp]
          exact invC_setTask s i TaskPhase.checking1 TaskPhase.pausedWait hg
            (fun _ => rfl) h
        · rw [if_neg hp]
          exact invC_setTask s i TaskPhase.checking1 TaskPhase.checking2 hg
            (fun _ => rfl) h
    · show InvC (if s.cancelled = true
        then setTask s i (TaskPhase.doneErr FFError.cancelled)
        else setTask s i TaskPhase.running)
      by_cases hcc : s.cancelled = true
      · rw [if_pos hcc]
        exact invC_setTask s i TaskPhase.checking2 (TaskPhase.doneErr FFError.cancelled)
          hg (fun hx => absurd hx (by decide)) h
      · rw [if_neg hcc]
        exact invC_setTask s i TaskPhase.checking2 TaskPhase.running hg
          (fun _ => rfl) h

theorem invC_step (s : SchedState) (e : SchedEv) (h : InvC s) : InvC (step s e) := by
  cases e with
  | mainStep =>
    show InvC (mainStepFn s)
    unfold mainStepFn
    cases hm : s.main with
    | loop i => exact invC_mainLoopStep s i hm h
    | racing i => exact h
    | awaitingAll => exact h
    | settled r => exact h
  | raceWake j =>
    show InvC (raceWakeFn s j)
    unfold raceWakeFn
    cases hm : s.main with
    | loop i => exact h
    | racing i => exact invC_raceWakeStep s i j h
    | awaitingAll => exact h
    | settled r => exact h
  | taskSrcOk i =>
    show InvC (if s.tasks.get? i = some TaskPhase.awaitingSource
      then setTask s i TaskPhase.checking1 else s)
    by_cases hg : s.tasks.get? i = some TaskPhase.awaitingSource
    · rw [if_pos hg]
      exact invC_setTask s i TaskPhase.awaitingSource TaskPhase.checking1 hg
        (fun _ => rfl) h
    · rw [if_neg hg]; exact h
  | taskSrcFail i =>
    show InvC (if s.tasks.get? i = some TaskPhase.awaitingSource
      then setTask s i (TaskPhase.doneErr (FFError.srcFailed i)) else s)
    by_cases hg : s.tasks.get? i = some TaskPhase.awaitingSource
    · rw [if_pos hg]
      exact invC_setTask s i TaskPhase.awaitingSource
        (TaskPhase.doneErr (FFError.srcFailed i)) hg
        (fun hx => by rw [inFlight_doneErr] at hx; exact Bool.noConfusion hx) h
    · rw [if_neg hg]; exact h
  | taskCheck i =>
    show InvC (taskCheckFn s i)
    exact invC_taskCheckFn s i h
  | attemptOk i =>
    by_cases hg : s.tasks.get? i = some TaskPhase.running
    · have h' := invC_setTask s i TaskPhase.running TaskPhase.doneOk hg
        (fun hx => absurd hx (by decide)) h
      show InvC (if s.tasks.get? i = some TaskPhase.running
        then { s with tasks := s.tasks.set i TaskPhase.doneOk,
                      completed := s.completed + 1 } else s)
      rw [if_pos hg]
      exact h'
    · show InvC (if s.tasks.get? i = some TaskPhase.running
        then { s with tasks := s.tasks.set i TaskPhase.doneOk,
                      completed := s.completed + 1 } else s)
      rw [if_neg hg]; exact h
  | attemptFail i =>
    show InvC (if s.tasks.get? i = some TaskPhase.running
      then setTask s i TaskPhase.delaying else s)
    by_cases hg : s.tasks.get? i = some TaskPhase.running
    · rw [if_pos hg]
      exact invC_setTask s i TaskPhase.running TaskPhase.delaying hg (fun _ => rfl) h
    · rw [if_neg hg]; exact h
  | progressThrow i =>
    by_cases hg : s.tasks.get? i = some TaskPhase.running
    · have h' := invC_setTask s i TaskPhase.running TaskPhase.delaying hg
        (fun _ => rfl) h
      show InvC (if s.tasks.get? i = some TaskPhase.running
        then { s with tasks := s.tasks.set i TaskPhase.delaying,
                      completed := s.completed + 1 } else s)
      rw [if_pos hg]
      exact h'
    · show InvC (if s.tasks.get? i = some TaskPhase.running
        then { s with tasks := s.tasks.set i TaskPhase.delaying,
                      completed := s.completed + 1 } else s)
      rw [if_neg hg]; exact h
  | timerFire i =>
    show InvC (if s.tasks.get? i = some TaskPhase.delaying
      then setTask s i TaskPhase.checking1 else s)
    by_cases hg : s.tasks.get? i = some TaskPhase.delaying
    · rw [if_pos hg]
      exact invC_setTask s i TaskPhase.delaying TaskPhase.checking1 hg (fun _ => rfl) h
    · rw [if_neg hg]; exact h
  | allOk =>
    show InvC (match s.main with
      | MainPhase.awaitingAll =>
        if s.tasks.all TaskPhase.isOk then settleMain s (Except.ok ()) else s
      | _ => s)
    cases hm : s.main with
    | awaitingAll =>
      by_cases ha : s.tasks.all TaskPhase.isOk
      · rw [if_pos ha]; exact invC_settleMain s _ h
      · rw [if_neg ha]; exact h
    | loop i => exact h
    | racing i => exact h
    | settled r => exact h
  | allErr j =>
    show InvC (match s.main with
      | MainPhase.awaitingAll =>
        match s.tasks.get? j with
        | some (TaskPhase.doneErr e) => settleMain s (Except.error e)
        | _ => s
      | _ => s)
    cases hm : s.main with
    | awaitingAll =>
      cases hg : s.tasks.get? j with
      | none => exact h
      | some a =>
        cases a
        case doneErr e => exact invC_settleMain s _ h
        all_goals exact h
    | loop i => exact h
    | racing i => exact h
    | settled r => exact h
  | pause =>
    refine invC_of_eq s { s with paused := true, tasks := s.tasks.map wakeTimers }
      ?_ rfl rfl h
    exact countP_map_of_pres TaskPhase.inFlight wakeTimers
      (pres_wakeTimers TaskPhase.inFlight rfl) s.tasks
  | resume =>
    show InvC (if s.paused
      then { s with paused := false,
                    tasks := (s.tasks.map wakeTimers).map releaseWaiter } else s)
    by_cases hp : s.paused
    · rw [if_pos hp]
      refine invC_of_eq s _ ?_ rfl rfl h
      show ((s.tasks.map wakeTimers).map releaseWaiter).countP TaskPhase.inFlight
        = s.tasks.countP TaskPhase.inFlight
      rw [countP_map_of_pres TaskPhase.inFlight releaseWaiter
        (pres_releaseWaiter TaskPhase.inFlight rfl)]
      exact countP_map_of_pres TaskPhase.inFlight wakeTimers
        (pres_wakeTimers TaskPhase.inFlight rfl) s.tasks
    · rw [if_neg hp]; exact h
  | cancel =>
    show InvC (if s.paused
      then { s with cancelled := true, paused := false,
                    tasks := (s.tasks.map wakeTimers).map releaseWaiter }
      else { s with cancelled := true, tasks := s.tasks.map wakeTimers })
    by_cases hp : s.paused
    · rw [if_pos hp]
      refine invC_of_eq s _ ?_ rfl rfl h
      show ((s.tasks.map wakeTimers).map releaseWaiter).countP TaskPhase.inFlight
        = s.tasks.countP TaskPhase.inFlight
      rw [countP_map_of_pres TaskPhase.inFlight releaseWaiter
        (pres_releaseWaiter TaskPhase.inFlight rfl)]
      exact countP_map_of_pres TaskPhase.inFlight wakeTimers
        (pres_wakeTimers TaskPhase.inFlight rfl) s.tasks
    · rw [if_neg hp]
      refine invC_of_eq s _ ?_ rfl rfl h
      exact countP_map_of_pres TaskPhase.inFlight wakeTimers
        (pres_wakeTimers TaskPhase.inFlight rfl) s.tasks

theorem invC_runFrom (evs : List SchedEv) :
    ∀ s : SchedState, InvC s → InvC (runFrom s evs) := by
  induction evs with
  | nil => intro s h; exact h
  | cons e rest ih =>
    intro s h
    exact ih (step s e) (invC_step s e h)

theorem invC_initSched (n c : Nat) (hc : 1 ≤ c) : InvC (initSched n c) := by
  constructor
  · show (List.replicate n TaskPhase.notStarted).countP TaskPhase.inFlight ≤ c
    rw [countP_replicate_false TaskPhase.inFlight TaskPhase.notStarted rfl n]
    omega
  · intro i _
    show (List.replicate n TaskPhase.notStarted).countP TaskPhase.inFlight < c
    rw [countP_replicate_false TaskPhase.inFlight TaskPhase.notStarted rfl n]
    omega

/-- Claim C5: for every run of `processChunks` over a chunk sequence
of length `n` with concurrency `c` where `1 ≤ c ≤ n`, the number of
simultaneously in-flight per-chunk tasks never exceeds `c`: after
adding a task, if the in-flight set has reached `c`, the scheduler
waits for any one task to finish before admitting the next source. -/
theorem c5_concurrency_bound :
    ∀ (n c : Nat) (evs : List SchedEv), 1 ≤ c → c ≤ n →
      inflight (runSched n c evs) ≤ c := by
  intro n c evs hc _
  have h1 := invC_runFrom evs (initSched n c) (invC_initSched n c hc)
  have h2 : (runFrom (initSched n c) evs).conc = c := conc_runFrom evs (initSched n c)
  calc inflight (runSched n c evs) ≤ (runSched n c evs).conc := h1.1
  _ = c := h2

/-- Closed witness for claim C5's theorem: a 2-source run with
concurrency 1 after one submission has one task in flight. -/
theorem c5_concurrency_bound_witness :
    1 ≤ 1 ∧ 1 ≤ 2 ∧ inflight (runSched 2 1 [SchedEv.mainStep]) ≤ 1 :=
  ⟨Nat.le_refl 1, by decide,
   c5_concurrency_bound 2 1 [SchedEv.mainStep] (Nat.le_refl 1) (by decide)⟩

theorem total_step (s : SchedState) (e : SchedEv) : (step s e).total = s.total := by
  cases e <;>
    simp only [step, mainStepFn, mainLoopStep, raceWakeFn, raceWakeStep, taskCheckFn,
      setTask, settleMain] <;>
    (repeat' split) <;> rfl

theorem tasks_length_step (s : SchedState) (e : SchedEv) :
    (step s e).tasks.length = s.tasks.length := by
  cases e <;>
    simp only [step, mainStepFn, mainLoopStep, raceWakeFn, raceWakeStep, taskCheckFn,
      setTask, settleMain] <;>
    (repeat' split) <;> simp

theorem tasks_length_runFrom (evs : List SchedEv) :
    ∀ s : SchedState, (runFrom s evs).tasks.length = s.tasks.length := by
  induction evs with
  | nil => intro s; rfl
  | cons e rest ih =>
    intro s
    show (runFrom (step s e) rest).tasks.length = s.tasks.length
    rw [ih (step s e), tasks_length_step]

theorem countOk_settleMain (s : SchedState) (r : Except FFError Unit) :
    countOk (settleMain s r) = countOk s :=
  countP_map_of_pres TaskPhase.isOk settlePhase
    (pres_settlePhase TaskPhase.isOk rfl rfl) s.tasks

theorem countOk_set_eq (s : SchedState) (i : Nat) (a b : TaskPhase)
    (hget : s.tasks.get? i = some a)
    (hok : TaskPhase.isOk b = TaskPhase.isOk a) :
    (s.tasks.set i b).countP TaskPhase.isOk = s.tasks.countP TaskPhase.isOk := by
  have hfl := countP_set_some TaskPhase.isOk b s.tasks i a hget
  rw [hok] at hfl
  cases ha : TaskPhase.isOk a <;> rw [ha] at hfl <;> simp at hfl <;> omega

theorem cc_mainLoopStep (s : SchedState) (i : Nat) :
    (mainLoopStep s i).completed = s.completed
    ∧ countOk (mainLoopStep s i) = countOk s := by
  unfold mainLoopStep
  by_cases hni : s.total ≤ i
  · rw [if_pos hni]; exact ⟨rfl, rfl⟩
  · rw [if_neg hni]
    by_cases hcc : s.cancelled = true
    · rw [if_pos hcc]
      exact ⟨rfl, countOk_settleMain s _⟩
    · rw [if_neg hcc]
      cases hg : s.tasks.get? i with
      | none => exact ⟨rfl, rfl⟩
      | some a =>
        cases a <;> try exact ⟨rfl, rfl⟩
        have hset : (s.tasks.set i TaskPhase.awaitingSource).countP TaskPhase.isOk
            = s.tasks.countP TaskPhase.isOk :=
          countOk_set_eq s i TaskPhase.notStarted TaskPhase.awaitingSource hg rfl
        by_cases hcn : s.conc
            ≤ inflight { s with tasks := s.tasks.set i TaskPhase.awaitingSource }
        · rw [if_pos hcn]; exact ⟨rfl, hset⟩
        · rw [if_neg hcn]; exact ⟨rfl, hset⟩

theorem cc_raceWakeStep (s : SchedState) (i j : Nat) :
    (raceWakeStep s i j).completed = s.completed
    ∧ countOk (raceWakeStep s i j) = countOk s := by
  unfold raceWakeStep
  by_cases hr : inflight s < s.conc
  · rw [if_pos hr]
    cases hg : s.tasks.get? j with
    | none => exact ⟨rfl, rfl⟩
    | some a =>
      cases a <;> try exact ⟨rfl, rfl⟩
      · by_cases hcc : s.cancelled = true
        · rw [if_pos hcc]
          exact ⟨rfl, countOk_settleMain s _⟩
        · rw [if_neg hcc]
          exact ⟨rfl, rfl⟩
      · exact ⟨rfl, countOk_settleMain s _⟩
  · rw [if_neg hr]
    exact ⟨rfl, rfl⟩

theorem cc_taskCheckFn (s : SchedState) (i : Nat) :
    (taskCheckFn s i).completed = s.completed
    ∧ countOk (taskCheckFn s i) = countOk s := by
  unfold taskCheckFn
  cases hg : s.tasks.get? i with
  | none => exact ⟨rfl, rfl⟩
  | some a =>
    cases a <;> try exact ⟨rfl, rfl⟩
    · show ((if s.cancelled = true
          then setTask s i (TaskPhase.doneErr FFError.cancelled)
          else if s.paused = true then setTask s i TaskPhase.pausedWait
          else setTask s i TaskPhase.checking2)).completed = s.completed ∧ _
      by_cases hcc : s.cancelled = true
      · rw [if_pos hcc]
        exact ⟨rfl, countOk_set_eq s i TaskPhase.checking1
          (TaskPhase.doneErr FFError.cancelled) hg rfl⟩
      · rw [if_neg hcc]
        by_cases hp : s.paused = true
        · rw [if_pos hp]
          exact ⟨rfl, countOk_set_eq s i TaskPhase.checking1 TaskPhase.pausedWait hg rfl⟩
        · rw [if_neg hp]
          exact ⟨rfl, countOk_set_eq s i TaskPhase.checking1 TaskPhase.checking2 hg rfl⟩
    · show ((if s.cancelled = true
          then setTask s i (TaskPhase.doneErr FFError.cancelled)
          else setTask s i TaskPhase.running)).completed = s.completed ∧ _
      by_cases hcc : s.cancelled = true
      · rw [if_pos hcc]
        exact ⟨rfl, countOk_set_eq s i TaskPhase.checking2
          (TaskPhase.doneErr FFError.cancelled) hg rfl⟩
      · rw [if_neg hcc]
        exact ⟨rfl, countOk_set_eq s i TaskPhase.checking2 TaskPhase.running hg rfl⟩

theorem cc_step (s : SchedState) (e : SchedEv)
    (hnp : SchedEv.noProgressThrow e = true) :
    (step s e).completed + countOk s = s.completed + countOk (step s e) := by
  cases e with
  | mainStep =>
    show (mainStepFn s).completed + countOk s = s.completed + countOk (mainStepFn s)
    unfold mainStepFn
    cases hm : s.main with
    | loop i =>
      have h := cc_mainLoopStep s i
      rw [h.1, h.2]
    | racing i => rfl
    | awaitingAll => rfl
    | settled r => rfl
  | raceWake j =>
    show (raceWakeFn s j).completed + countOk s = s.completed + countOk (raceWakeFn s j)
    unfold raceWakeFn
    cases hm : s.main with
    | loop i => rfl
    | racing i =>
      have h := cc_raceWakeStep s i j
      rw [h.1, h.2]
    | awaitingAll => rfl
    | settled r => rfl
  | taskSrcOk i =>
    show (if s.tasks.get? i = some TaskPhase.awaitingSource
        then setTask s i TaskPhase.checking1 else s).completed + countOk s
      = s.completed + countOk (if s.tasks.get? i = some TaskPhase.awaitingSource
        then setTask s i TaskPhase.checking1 else s)
    by_cases hg : s.tasks.get? i = some TaskPhase.awaitingSource
    · rw [if_pos hg]
      have h := countOk_set_eq s i TaskPhase.awaitingSource TaskPhase.checking1 hg rfl
      show s.completed + s.tasks.countP TaskPhase.isOk
        = s.completed + (s.tasks.set i TaskPhase.checking1).countP TaskPhase.isOk
      omega
    · rw [if_neg hg]
  | taskSrcFail i =>
    show (if s.tasks.get? i = some TaskPhase.awaitingSource
        then setTask s i (TaskPhase.doneErr (FFError.srcFailed i)) else s).completed
        + countOk s
      = s.completed + countOk (if s.tasks.get? i = some TaskPhase.awaitingSource
        then setTask s i (TaskPhase.doneErr (FFError.srcFailed i)) else s)
    by_cases hg : s.tasks.get? i = some TaskPhase.awaitingSource
    · rw [if_pos hg]
      have h := countOk_set_eq s i TaskPhase.awaitingSource
        (TaskPhase.doneErr (FFError.srcFailed i)) hg rfl
      show s.completed + s.tasks.countP TaskPhase.isOk
        = s.completed + (s.tasks.set i (TaskPhase.doneErr (FFError.srcFailed i))).countP
            TaskPhase.isOk
      omega
    · rw [if_neg hg]
  | attemptOk i =>
    show (if s.tasks.get? i = some TaskPhase.running
        then { s with tasks := s.tasks.set i TaskPhase.doneOk,
                      completed := s.completed + 1 } else s).completed + countOk s
      = s.completed + countOk (if s.tasks.get? i = some TaskPhase.running
        then { s with tasks := s.tasks.set i TaskPhase.doneOk,
                      completed := s.completed + 1 } else s)
    by_cases hg : s.tasks.get? i = some TaskPhase.running
    · rw [if_pos hg]
      have hfl := countP_set_some TaskPhase.isOk TaskPhase.doneOk s.tasks i
        TaskPhase.running hg
      simp [TaskPhase.isOk] at hfl
      show s.completed + 1 + s.tasks.countP TaskPhase.isOk
        = s.completed + (s.tasks.set i TaskPhase.doneOk).countP TaskPhase.isOk
      omega
    · rw [if_neg hg]
  | attemptFail i =>
    show (if s.tasks.get? i = some TaskPhase.running
        then setTask s i TaskPhase.delaying else s).completed + countOk s
      = s.completed + countOk (if s.tasks.get? i = some TaskPhase.running
        then setTask s i TaskPhase.delaying else s)
    by_cases hg : s.tasks.get? i = some TaskPhase.running
    · rw [if_pos hg]
      have h := countOk_set_eq s i TaskPhase.running TaskPhase.delaying hg rfl
      show s.completed + s.tasks.countP TaskPhase.isOk
        = s.completed + (s.tasks.set i TaskPhase.delaying).countP TaskPhase.isOk
      omega
    · rw [if_neg hg]
  | progressThrow i => exact Bool.noConfusion hnp
  | timerFire i =>
    show (if s.tasks.get? i = some TaskPhase.delaying
        then setTask s i TaskPhase.checking1 else s).completed + countOk s
      = s.completed + countOk (if s.tasks.get? i = some TaskPhase.delaying
        then setTask s i TaskPhase.checking1 else s)
    by_cases hg : s.tasks.get? i = some TaskPhase.delaying
    · rw [if_pos hg]
      have h := countOk_set_eq s i TaskPhase.delaying TaskPhase.checking1 hg rfl
      show s.completed + s.tasks.countP TaskPhase.isOk
        = s.completed + (s.tasks.set i TaskPhase.checking1).countP TaskPhase.isOk
      omega
    · rw [if_neg hg]
  | taskCheck i =>
    show (taskCheckFn s i).completed + countOk s = s.completed + countOk (taskCheckFn s i)
    have h := cc_taskCheckFn s i
    rw [h.1, h.2]
  | allOk =>
    show (match s.main with
      | MainPhase.awaitingAll =>
        if s.tasks.all TaskPhase.isOk then settleMain s (Except.ok ()) else s
      | _ => s).completed + countOk s
      = s.completed + countOk (match s.main with
      | MainPhase.awaitingAll =>
        if s.tasks.all TaskPhase.isOk then settleMain s (Except.ok ()) else s
      | _ => s)
    cases hm : s.main with
    | awaitingAll =>
      by_cases ha : s.tasks.all TaskPhase.isOk
      · rw [if_pos ha]
        have h := countOk_settleMain s (Except.ok ())
        show s.completed + countOk s = s.completed + countOk (settleMain s (Except.ok ()))
        omega
      · rw [if_neg ha]
    | loop i => rfl
    | racing i => rfl
    | settled r => rfl
  | allErr j =>
    show (match s.main with
      | MainPhase.awaitingAll =>
        match s.tasks.get? j with
        | some (TaskPhase.doneErr e) => settleMain s (Except.error e)
        | _ => s
      | _ => s).completed + countOk s
      = s.completed + countOk (match s.main with
      | MainPhase.awaitingAll =>
        match s.tasks.get? j with
        | some (TaskPhase.doneErr e) => settleMain s (Except.error e)
        | _ => s
      | _ => s)
    cases hm : s.main with
    | awaitingAll =>
      cases hg : s.tasks.get? j with
      | none => rfl
      | some a =>
        cases a <;> try rfl
        next e =>
          have h := countOk_settleMain s (Except.error e)
          show s.completed + countOk s
            = s.completed + countOk (settleMain s (Except.error e))
          omega
    | loop i => rfl
    | racing i => rfl
    | settled r => rfl
  | pause =>
    show s.completed + s.tasks.countP TaskPhase.isOk
      = s.completed + (s.tasks.map wakeTimers).countP TaskPhase.isOk
    rw [countP_map_of_pres TaskPhase.isOk wakeTimers (pres_wakeTimers TaskPhase.isOk rfl)]
  | resume =>
    show (if s.paused
        then { s with paused := false,
                      tasks := (s.tasks.map wakeTimers).map releaseWaiter }
        else s).completed + countOk s
      = s.completed + countOk (if s.paused
        then { s with paused := false,
                      tasks := (s.tasks.map wakeTimers).map releaseWaiter }
        else s)
    by_cases hp : s.paused
    · rw [if_pos hp]
      show s.completed + s.tasks.countP TaskPhase.isOk
        = s.completed + ((s.tasks.map wakeTimers).map releaseWaiter).countP TaskPhase.isOk
      rw [countP_map_of_pres TaskPhase.isOk releaseWaiter
        (pres_releaseWaiter TaskPhase.isOk rfl)]
      rw [countP_map_of_pres TaskPhase.isOk wakeTimers (pres_wakeTimers TaskPhase.isOk rfl)]
    · rw [if_neg hp]
  | cancel =>
    show (if s.paused
        then { s with cancelled := true, paused := false,
                      tasks := (s.tasks.map wakeTimers).map releaseWaiter }
        else { s with cancelled := true, tasks := s.tasks.map wakeTimers }).completed
        + countOk s
      = s.completed + countOk (if s.paused
        then { s with cancelled := true, paused := false,
                      tasks := (s.tasks.map wakeTimers).map releaseWaiter }
        else { s with cancelled := true, tasks := s.tasks.map wakeTimers })
    by_cases hp : s.paused
    · rw [if_pos hp]
      show s.completed + s.tasks.countP TaskPhase.isOk
        = s.completed + ((s.tasks.map wakeTimers).map releaseWaiter).countP TaskPhase.isOk
      rw [countP_map_of_pres TaskPhase.isOk releaseWaiter
        (pres_releaseWaiter TaskPhase.isOk rfl)]
      rw [countP_map_of_pres TaskPhase.isOk wakeTimers (pres_wakeTimers TaskPhase.isOk rfl)]
    · rw [if_neg hp]
      show s.completed + s.tasks.countP TaskPhase.isOk
        = s.completed + (s.tasks.map wakeTimers).countP TaskPhase.isOk
      rw [countP_map_of_pres TaskPhase.isOk wakeTimers (pres_wakeTimers TaskPhase.isOk rfl)]

theorem cc_runFrom (evs : List SchedEv) :
    ∀ s : SchedState, evs.all SchedEv.noProgressThrow = true →
      (runFrom s evs).completed + countOk s
        = s.completed + countOk (runFrom s evs) := by
  induction evs with
  | nil => intro s _; rfl
  | cons e rest ih =>
    intro s hall
    simp only [List.all_cons, Bool.and_eq_true] at hall
    have h1 := cc_step s e hall.1
    have h2 := ih (step s e) hall.2
    show (runFrom (step s e) rest).completed + countOk s
      = s.completed + countOk (runFrom (step s e) rest)
    omega

/-- Claim C2 (amended): throughout every run of `processChunks` over
`n` chunk sources in which the user-supplied `onProgress` callback
never throws, the progress counter satisfies `0 ≤ completed ≤ total`
(trivially non-negative as a natural number), and `completed` equals
at all times the number of chunks whose processing has succeeded — so
it increases by exactly 1 per chunk, exactly once per chunk, and only
on that chunk's successful processing (the last conjunct states the
per-step exchange law for such steps); on full success it ends with
`completed = total = n` after exactly `n` increments.  (The unamended
claim — quantifying over every run — is refuted by
`c2_progress_counter_counterexample`: `completed++` precedes the
`onProgress` call inside the retried closure, so a throwing
`onProgress` makes the closure reject after the increment, the chunk
is processed again, and the counter double-increments past
`total`.) -/
theorem c2_progress_counter :
    ∀ (n c : Nat) (evs : List SchedEv),
      evs.all SchedEv.noProgressThrow = true →
      (runSched n c evs).completed = countOk (runSched n c evs)
      ∧ (runSched n c evs).completed ≤ n
      ∧ ((runSched n c evs).tasks.all TaskPhase.isOk = true →
          (runSched n c evs).completed = n)
      ∧ (∀ e, SchedEv.noProgressThrow e = true →
          (step (runSched n c evs) e).completed + countOk (runSched n c evs)
          = (runSched n c evs).completed + countOk (step (runSched n c evs) e)) := by
  intro n c evs hnp
  have hcc : (runSched n c evs).completed + countOk (initSched n c)
      = (initSched n c).completed + countOk (runSched n c evs) :=
    cc_runFrom evs (initSched n c) hnp
  have hinit_c : (initSched n c).completed = 0 := rfl
  have hinit_ok : countOk (initSched n c) = 0 :=
    countP_replicate_false TaskPhase.isOk TaskPhase.notStarted rfl n
  have hlen : (runSched n c evs).tasks.length = n := by
    show (runFrom (initSched n c) evs).tasks.length = n
    rw [tasks_length_runFrom]
    simp [initSched]
  have heq : (runSched n c evs).completed = countOk (runSched n c evs) := by omega
  have hle : countOk (runSched n c evs) ≤ (runSched n c evs).tasks.length :=
    List.countP_le_length _
  refine ⟨heq, by omega, ?_, ?_⟩
  · intro hall
    have hfull : countOk (runSched n c evs) = (runSched n c evs).tasks.length := by
      unfold countOk
      rw [List.countP_eq_length]
      intro x hx
      exact List.all_eq_true.mp hall x hx
    omega
  · intro e he
    exact cc_step (runSched n c evs) e he

/-- Closed witness for the amended claim C2's theorem: a fully
successful single-chunk run with a non-throwing `onProgress` ends with
every task succeeded and `completed = 1`. -/
theorem c2_progress_counter_witness :
    ([SchedEv.mainStep, SchedEv.taskSrcOk 0, SchedEv.taskCheck 0,
      SchedEv.taskCheck 0, SchedEv.attemptOk 0, SchedEv.raceWake 0, SchedEv.mainStep,
      SchedEv.allOk].all SchedEv.noProgressThrow) = true
    ∧ (runSched 1 1 [SchedEv.mainStep, SchedEv.taskSrcOk 0, SchedEv.taskCheck 0,
      SchedEv.taskCheck 0, SchedEv.attemptOk 0, SchedEv.raceWake 0, SchedEv.mainStep,
      SchedEv.allOk]).tasks.all TaskPhase.isOk = true
    ∧ (runSched 1 1 [SchedEv.mainStep, SchedEv.taskSrcOk 0, SchedEv.taskCheck 0,
      SchedEv.taskCheck 0, SchedEv.attemptOk 0, SchedEv.raceWake 0, SchedEv.mainStep,
      SchedEv.allOk]).completed = 1 :=
  ⟨by decide, by decide,
   (c2_progress_counter 1 1 [SchedEv.mainStep, SchedEv.taskSrcOk 0, SchedEv.taskCheck 0,
      SchedEv.taskCheck 0, SchedEv.attemptOk 0, SchedEv.raceWake 0, SchedEv.mainStep,
      SchedEv.allOk] (by decide)).2.2.1 (by decide)⟩

/-- Counterexample to claim C2 as stated: with one chunk source and a
processor that succeeds, an `onProgress` callback that throws on its
first invocation makes the retried closure reject after `completed++`;
the retry executor re-runs the closure for the same chunk, which then
fully succeeds, so the single chunk increments the counter twice and
the run resolves with `completed = 2 > total = 1`, violating
`0 ≤ completed ≤ total`, "exactly once per chunk" and "only on
success". -/
theorem c2_progress_counter_counterexample :
    (runSched 1 2 [SchedEv.mainStep, SchedEv.mainStep, SchedEv.taskSrcOk 0,
      SchedEv.taskCheck 0, SchedEv.taskCheck 0, SchedEv.progressThrow 0,
      SchedEv.timerFire 0, SchedEv.taskCheck 0, SchedEv.taskCheck 0,
      SchedEv.attemptOk 0, SchedEv.allOk]).total = 1
    ∧ (runSched 1 2 [SchedEv.mainStep, SchedEv.mainStep, SchedEv.taskSrcOk 0,
      SchedEv.taskCheck 0, SchedEv.taskCheck 0, SchedEv.progressThrow 0,
      SchedEv.timerFire 0, SchedEv.taskCheck 0, SchedEv.taskCheck 0,
      SchedEv.attemptOk 0, SchedEv.allOk]).completed = 2
    ∧ (runSched 1 2 [SchedEv.mainStep, SchedEv.mainStep, SchedEv.taskSrcOk 0,
      SchedEv.taskCheck 0, SchedEv.taskCheck 0, SchedEv.progressThrow 0,
      SchedEv.timerFire 0, SchedEv.taskCheck 0, SchedEv.taskCheck 0,
      SchedEv.attemptOk 0, SchedEv.allOk]).main = MainPhase.settled (Except.ok ()) :=
  ⟨rfl, rfl, rfl⟩

theorem countP_set_eq_of (p : TaskPhase → Bool) (s : SchedState) (i : Nat)
    (a b : TaskPhase) (hget : s.tasks.get? i = some a) (hok : p b = p a) :
    (s.tasks.set i b).countP p = s.tasks.countP p := by
  have hfl := countP_set_some p b s.tasks i a hget
  rw [hok] at hfl
  cases ha : p a <;> rw [ha] at hfl <;> simp at hfl <;> omega

theorem startedCount_settleMain (s : SchedState) (r : Except FFError Unit) :
    startedCount (settleMain s r) = startedCount s :=
  countP_map_of_pres TaskPhase.isStarted settlePhase
    (pres_settlePhase TaskPhase.isStarted rfl rfl) s.tasks

theorem errs_settleMain (s : SchedState) (r : Except FFError Unit) :
    taskErrsCancelled (settleMain s r) = taskErrsCancelled s :=
  all_map_of_pres TaskPhase.errOnlyCancelled settlePhase
    (pres_settlePhase TaskPhase.errOnlyCancelled rfl rfl) s.tasks

theorem cancelled_step (s : SchedState) (e : SchedEv) (hc : s.cancelled = true) :
    (step s e).cancelled = true := by
  cases e <;>
    simp only [step, mainStepFn, mainLoopStep, raceWakeFn, raceWakeStep, taskCheckFn,
      setTask, settleMain] <;>
    (repeat' split) <;> first | exact hc | rfl

theorem started_step (s : SchedState) (e : SchedEv) (hc : s.cancelled = true) :
    startedCount (step s e) = startedCount s := by
  cases e with
  | mainStep =>
    show startedCount (mainStepFn s) = startedCount s
    unfold mainStepFn
    cases hm : s.main with
    | loop i =>
      show startedCount (mainLoopStep s i) = startedCount s
      unfold mainLoopStep
      by_cases hni : s.total ≤ i
      · rw [if_pos hni]; rfl
      · rw [if_neg hni, if_pos hc]
        exact startedCount_settleMain s _
    | racing i => rfl
    | awaitingAll => rfl
    | settled r => rfl
  | raceWake j =>
    show startedCount (raceWakeFn s j) = startedCount s
    unfold raceWakeFn
    cases hm : s.main with
    | racing i =>
      show startedCount (raceWakeStep s i j) = startedCount s
      unfold raceWakeStep
      by_cases hr : inflight s < s.conc
      · rw [if_pos hr]
        cases hg : s.tasks.get? j with
        | none => rfl
        | some a =>
          cases a <;> try rfl
          all_goals try exact startedCount_settleMain s _
          rw [if_pos hc]
          exact startedCount_settleMain s _
      · rw [if_neg hr]
    | loop i => rfl
    | awaitingAll => rfl
    | settled r => rfl
  | taskSrcOk i =>
    show startedCount (if s.tasks.get? i = some TaskPhase.awaitingSource
      then setTask s i TaskPhase.checking1 else s) = startedCount s
    by_cases hg : s.tasks.get? i = some TaskPhase.awaitingSource
    · rw [if_pos hg]
      exact countP_set_eq_of TaskPhase.isStarted s i TaskPhase.awaitingSource
        TaskPhase.checking1 hg rfl
    · rw [if_neg hg]
  | taskSrcFail i =>
    show startedCount (if s.tasks.get? i = some TaskPhase.awaitingSource
      then setTask s i (TaskPhase.doneErr (FFError.srcFailed i)) else s) = startedCount s
    by_cases hg : s.tasks.get? i = some TaskPhase.awaitingSource
    · rw [if_pos hg]
      exact countP_set_eq_of TaskPhase.isStarted s i TaskPhase.awaitingSource
        (TaskPhase.doneErr (FFError.srcFailed i)) hg rfl
    · rw [if_neg hg]
  | taskCheck i =>
    show startedCount (taskCheckFn s i) = startedCount s
    unfold taskCheckFn
    cases hg : s.tasks.get? i with
    | none => rfl
    | some a =>
      cases a <;> try rfl
      · show startedCount (if s.cancelled = true
          then setTask s i (TaskPhase.doneErr FFError.cancelled)
          else if s.paused = true then setTask s i TaskPhase.pausedWait
          else setTask s i TaskPhase.checking2) = startedCount s
        rw [if_pos hc]
        exact countP_set_eq_of TaskPhase.isStarted s i TaskPhase.checking1
          (TaskPhase.doneErr FFError.cancelled) hg rfl
      · show startedCount (if s.cancelled = true
          then setTask s i (TaskPhase.doneErr FFError.cancelled)
          else setTask s i TaskPhase.running) = startedCount s
        rw [if_pos hc]
        exact countP_set_eq_of TaskPhase.isStarted s i TaskPhase.checking2
          (TaskPhase.doneErr FFError.cancelled) hg rfl
  | attemptOk i =>
    show startedCount (if s.tasks.get? i = some TaskPhase.running
      then { s with tasks := s.tasks.set i TaskPhase.doneOk,
                    completed := s.completed + 1 } else s) = startedCount s
    by_cases hg : s.tasks.get? i = some TaskPhase.running
    · rw [if_pos hg]
      exact countP_set_eq_of TaskPhase.isStarted s i TaskPhase.running
        TaskPhase.doneOk hg rfl
    · rw [if_neg hg]
  | attemptFail i =>
    show startedCount (if s.tasks.get? i = some TaskPhase.running
      then setTask s i TaskPhase.delaying else s) = startedCount s
    by_cases hg : s.tasks.get? i = some TaskPhase.running
    · rw [if_pos hg]
      exact countP_set_eq_of TaskPhase.isStarted s i TaskPhase.running
        TaskPhase.delaying hg rfl
    · rw [if_neg hg]
  | progressThrow i =>
    show startedCount (if s.tasks.get? i = some TaskPhase.running
      then { s with tasks := s.tasks.set i TaskPhase.delaying,
                    completed := s.completed + 1 } else s) = startedCount s
    by_cases hg : s.tasks.get? i = some TaskPhase.running
    · rw [if_pos hg]
      exact countP_set_eq_of TaskPhase.isStarted s i TaskPhase.running
        TaskPhase.delaying hg rfl
    · rw [if_neg hg]
  | timerFire i =>
    show startedCount (if s.tasks.get? i = some TaskPhase.delaying
      then setTask s i TaskPhase.checking1 else s) = startedCount s
    by_cases hg : s.tasks.get? i = some TaskPhase.delaying
    · rw [if_pos hg]
      exact countP_set_eq_of TaskPhase.isStarted s i TaskPhase.delaying
        TaskPhase.checking1 hg rfl
    · rw [if_neg hg]
  | allOk =>
    show startedCount (match s.main with
      | MainPhase.awaitingAll =>
        if s.tasks.all TaskPhase.isOk then settleMain s (Except.ok ()) else s
      | _ => s) = startedCount s
    cases hm : s.main with
    | awaitingAll =>
      by_cases ha : s.tasks.all TaskPhase.isOk
      · rw [if_pos ha]
        exact startedCount_settleMain s _
      · rw [if_neg ha]
    | loop i => rfl
    | racing i => rfl
    | settled r => rfl
  | allErr j =>
    show startedCount (match s.main with
      | MainPhase.awaitingAll =>
        match s.tasks.get? j with
        | some (TaskPhase.doneErr e) => settleMain s (Except.error e)
        | _ => s
      | _ => s) = startedCount s
    cases hm : s.main with
    | awaitingAll =>
      cases hg : s.tasks.get? j with
      | none => rfl
      | some a =>
        cases a <;> try rfl
        next e => exact startedCount_settleMain s (Except.error e)
    | loop i => rfl
    | racing i => rfl
    | settled r => rfl
  | pause =>
    show (s.tasks.map wakeTimers).countP TaskPhase.isStarted
      = s.tasks.countP TaskPhase.isStarted
    exact countP_map_of_pres TaskPhase.isStarted wakeTimers
      (pres_wakeTimers TaskPhase.isStarted rfl) s.tasks
  | resume =>
    show startedCount (if s.paused
      then { s with paused := false,
                    tasks := (s.tasks.map wakeTimers).map releaseWaiter } else s)
      = startedCount s
    by_cases hp : s.paused
    · rw [if_pos hp]
      show ((s.tasks.map wakeTimers).map releaseWaiter).countP TaskPhase.isStarted
        = s.tasks.countP TaskPhase.isStarted
      rw [countP_map_of_pres TaskPhase.isStarted releaseWaiter
        (pres_releaseWaiter TaskPhase.isStarted rfl)]
      exact countP_map_of_pres TaskPhase.isStarted wakeTimers
        (pres_wakeTimers TaskPhase.isStarted rfl) s.tasks
    · rw [if_neg hp]
  | cancel =>
    show startedCount (if s.paused
      then { s with cancelled := true, paused := false,
                    tasks := (s.tasks.map wakeTimers).map releaseWaiter }
      else { s with cancelled := true, tasks := s.tasks.map wakeTimers })
      = startedCount s
    by_cases hp : s.paused
    · rw [if_pos hp]
      show ((s.tasks.map wakeTimers).map releaseWaiter).countP TaskPhase.isStarted
        = s.tasks.countP TaskPhase.isStarted
      rw [countP_map_of_pres TaskPhase.isStarted releaseWaiter
        (pres_releaseWaiter TaskPhase.isStarted rfl)]
      exact countP_map_of_pres TaskPhase.isStarted wakeTimers
        (pres_wakeTimers TaskPhase.isStarted rfl) s.tasks
    · rw [if_neg hp]
      show (s.tasks.map wakeTimers).countP TaskPhase.isStarted
        = s.tasks.countP TaskPhase.isStarted
      exact countP_map_of_pres TaskPhase.isStarted wakeTimers
        (pres_wakeTimers TaskPhase.isStarted rfl) s.tasks

theorem started_cancelled_runFrom (evs : List SchedEv) :
    ∀ s : SchedState, s.cancelled = true →
      startedCount (runFrom s evs) = startedCount s
      ∧ (runFrom s evs).cancelled = true := by
  induction evs with
  | nil => intro s hc; exact ⟨rfl, hc⟩
  | cons e rest ih =>
    intro s hc
    have hc2 := cancelled_step s e hc
    have h := ih (step s e) hc2
    exact ⟨by rw [show runFrom s (e :: rest) = runFrom (step s e) rest from rfl,
      h.1, started_step s e hc], h.2⟩

theorem qc_step (s : SchedState) (e : SchedEv) (hns : SchedEv.notSrcFail e = true)
    (h : QC s) : QC (step s e) := by
  obtain ⟨hc, herr, hmain⟩ := h
  cases e with
  | mainStep =>
    show QC (mainStepFn s)
    unfold mainStepFn
    cases hm : s.main with
    | loop i =>
      have hlt : i < s.total := by
        cases hmain with
        | inl hb =>
          unfold beforeAllB at hb
          rw [hm] at hb
          simpa using hb
        | inr hs2 =>
          rw [hm] at hs2
          exact MainPhase.noConfusion hs2
      show QC (mainLoopStep s i)
      unfold mainLoopStep
      rw [if_neg (by omega), if_pos hc]
      refine ⟨hc, ?_, Or.inr rfl⟩
      show taskErrsCancelled (settleMain s (Except.error FFError.cancelled)) = true
      rw [errs_settleMain]
      exact herr
    | racing i => exact ⟨hc, herr, hmain⟩
    | awaitingAll => exact ⟨hc, herr, hmain⟩
    | settled r => exact ⟨hc, herr, hmain⟩
  | raceWake j =>
    show QC (raceWakeFn s j)
    unfold raceWakeFn
    cases hm : s.main with
    | racing i =>
      show QC (raceWakeStep s i j)
      unfold raceWakeStep
      by_cases hr : inflight s < s.conc
      · rw [if_pos hr]
        cases hg : s.tasks.get? j with
        | none => exact ⟨hc, herr, hmain⟩
        | some a =>
          cases a <;> try exact ⟨hc, herr, hmain⟩
          · rw [if_pos hc]
            refine ⟨hc, ?_, Or.inr rfl⟩
            show taskErrsCancelled (settleMain s (Except.error FFError.cancelled)) = true
            rw [errs_settleMain]
            exact herr
          next e =>
            have he : TaskPhase.errOnlyCancelled (TaskPhase.doneErr e) = true :=
              all_get?_of TaskPhase.errOnlyCancelled s.tasks j _ herr hg
            have he2 : e = FFError.cancelled := by
              cases e with
              | cancelled => rfl
              | srcFailed k => simp [TaskPhase.errOnlyCancelled] at he
              | procFailed k => simp [TaskPhase.errOnlyCancelled] at he
            subst he2
            refine ⟨hc, ?_, Or.inr rfl⟩
            show taskErrsCancelled (settleMain s (Except.error FFError.cancelled)) = true
            rw [errs_settleMain]
            exact herr
      · rw [if_neg hr]
        exact ⟨hc, herr, hmain⟩
    | loop i => exact ⟨hc, herr, hmain⟩
    | awaitingAll => exact ⟨hc, herr, hmain⟩
    | settled r => exact ⟨hc, herr, hmain⟩
  | taskSrcOk i =>
    show QC (if s.tasks.get? i = some TaskPhase.awaitingSource
      then setTask s i TaskPhase.checking1 else s)
    by_cases hg : s.tasks.get? i = some TaskPhase.awaitingSource
    · rw [if_pos hg]
      refine ⟨hc, ?_, hmain⟩
      show (s.tasks.set i TaskPhase.checking1).all TaskPhase.errOnlyCancelled = true
      exact all_set_of TaskPhase.errOnlyCancelled TaskPhase.checking1 s.tasks i herr rfl
    · rw [if_neg hg]
      exact ⟨hc, herr, hmain⟩
  | taskSrcFail i => exact Bool.noConfusion hns
  | taskCheck i =>
    show QC (taskCheckFn s i)
    unfold taskCheckFn
    cases hg : s.tasks.get? i with
    | none => exact ⟨hc, herr, hmain⟩
    | some a =>
      cases a <;> try exact ⟨hc, herr, hmain⟩
      · show QC (if s.cancelled = true
          then setTask s i (TaskPhase.doneErr FFError.cancelled)
          else if s.paused = true then setTask s i TaskPhase.pausedWait
          else setTask s i TaskPhase.checking2)
        rw [if_pos hc]
        refine ⟨hc, ?_, hmain⟩
        show (s.tasks.set i (TaskPhase.doneErr FFError.cancelled)).all
          TaskPhase.errOnlyCancelled = true
        exact all_set_of TaskPhase.errOnlyCancelled _ s.tasks i herr rfl
      · show QC (if s.cancelled = true
          then setTask s i (TaskPhase.doneErr FFError.cancelled)
          else setTask s i TaskPhase.running)
        rw [if_pos hc]
        refine ⟨hc, ?_, hmain⟩
        show (s.tasks.set i (TaskPhase.doneErr FFError.cancelled)).all
          TaskPhase.errOnlyCancelled = true
        exact all_set_of TaskPhase.errOnlyCancelled _ s.tasks i herr rfl
  | attemptOk i =>
    show QC (if s.tasks.get? i = some TaskPhase.running
      then { s with tasks := s.tasks.set i TaskPhase.doneOk,
                    completed := s.completed + 1 } else s)
    by_cases hg : s.tasks.get? i = some TaskPhase.running
    · rw [if_pos hg]
      refine ⟨hc, ?_, hmain⟩
      show (s.tasks.set i TaskPhase.doneOk).all TaskPhase.errOnlyCancelled = true
      exact all_set_of TaskPhase.errOnlyCancelled TaskPhase.doneOk s.tasks i herr rfl
    · rw [if_neg hg]
      exact ⟨hc, herr, hmain⟩
  | attemptFail i =>
    show QC (if s.tasks.get? i = some TaskPhase.running
      then setTask s i TaskPhase.delaying else s)
    by_cases hg : s.tasks.get? i = some TaskPhase.running
    · rw [if_pos hg]
      refine ⟨hc, ?_, hmain⟩
      show (s.tasks.set i TaskPhase.delaying).all TaskPhase.errOnlyCancelled = true
      exact all_set_of TaskPhase.errOnlyCancelled TaskPhase.delaying s.tasks i herr rfl
    · rw [if_neg hg]
      exact ⟨hc, herr, hmain⟩
  | progressThrow i =>
    show QC (if s.tasks.get? i = some TaskPhase.running
      then { s with tasks := s.tasks.set i TaskPhase.delaying,
                    completed := s.completed + 1 } else s)
    by_cases hg : s.tasks.get? i = some TaskPhase.running
    · rw [if_pos hg]
      refine ⟨hc, ?_, hmain⟩
      show (s.tasks.set i TaskPhase.delaying).all TaskPhase.errOnlyCancelled = true
      exact all_set_of TaskPhase.errOnlyCancelled TaskPhase.delaying s.tasks i herr rfl
    · rw [if_neg hg]
      exact ⟨hc, herr, hmain⟩
  | timerFire i =>
    show QC (if s.tasks.get? i = some TaskPhase.delaying
      then setTask s i TaskPhase.checking1 else s)
    by_cases hg : s.tasks.get? i = some TaskPhase.delaying
    · rw [if_pos hg]
      refine ⟨hc, ?_, hmain⟩
      show (s.tasks.set i TaskPhase.checking1).all TaskPhase.errOnlyCancelled = true
      exact all_set_of TaskPhase.errOnlyCancelled TaskPhase.checking1 s.tasks i herr rfl
    · rw [if_neg hg]
      exact ⟨hc, herr, hmain⟩
  | allOk =>
    show QC (match s.main with
      | MainPhase.awaitingAll =>
        if s.tasks.all TaskPhase.isOk then settleMain s (Except.ok ()) else s
      | _ => s)
    cases hm : s.main with
    | awaitingAll =>
      exfalso
      cases hmain with
      | inl hb =>
        unfold beforeAllB at hb
        rw [hm] at hb
        simp at hb
      | inr hs2 =>
        rw [hm] at hs2
        exact MainPhase.noConfusion hs2
    | loop i => exact ⟨hc, herr, hmain⟩
    | racing i => exact ⟨hc, herr, hmain⟩
    | settled r => exact ⟨hc, herr, hmain⟩
  | allErr j =>
    show QC (match s.main with
      | MainPhase.awaitingAll =>
        match s.tasks.get? j with
        | some (TaskPhase.doneErr e) => settleMain s (Except.error e)
        | _ => s
      | _ => s)
    cases hm : s.main with
    | awaitingAll =>
      exfalso
      cases hmain with
      | inl hb =>
        unfold beforeAllB at hb
        rw [hm] at hb
        simp at hb
      | inr hs2 =>
        rw [hm] at hs2
        exact MainPhase.noConfusion hs2
    | loop i => exact ⟨hc, herr, hmain⟩
    | racing i => exact ⟨hc, herr, hmain⟩
    | settled r => exact ⟨hc, herr, hmain⟩
  | pause =>
    refine ⟨hc, ?_, hmain⟩
    show (s.tasks.map wakeTimers).all TaskPhase.errOnlyCancelled = true
    rw [all_map_of_pres TaskPhase.errOnlyCancelled wakeTimers
      (pres_wakeTimers TaskPhase.errOnlyCancelled rfl)]
    exact herr
  | resume =>
    show QC (if s.paused
      then { s with paused := false,
                    tasks := (s.tasks.map wakeTimers).map releaseWaiter } else s)
    by_cases hp : s.paused
    · rw [if_pos hp]
      refine ⟨hc, ?_, hmain⟩
      show ((s.tasks.map wakeTimers).map releaseWaiter).all TaskPhase.errOnlyCancelled
        = true
      rw [all_map_of_pres TaskPhase.errOnlyCancelled releaseWaiter
        (pres_releaseWaiter TaskPhase.errOnlyCancelled rfl)]
      rw [all_map_of_pres TaskPhase.errOnlyCancelled wakeTimers
        (pres_wakeTimers TaskPhase.errOnlyCancelled rfl)]
      exact herr
    · rw [if_neg hp]
      exact ⟨hc, herr, hmain⟩
  | cancel =>
    show QC (if s.paused
      then { s with cancelled := true, paused := false,
                    tasks := (s.tasks.map wakeTimers).map releaseWaiter }
      else { s with cancelled := true, tasks := s.tasks.map wakeTimers })
    by_cases hp : s.paused
    · rw [if_pos hp]
      refine ⟨rfl, ?_, hmain⟩
      show ((s.tasks.map wakeTimers).map releaseWaiter).all TaskPhase.errOnlyCancelled
        = true
      rw [all_map_of_pres TaskPhase.errOnlyCancelled releaseWaiter
        (pres_releaseWaiter TaskPhase.errOnlyCancelled rfl)]
      rw [all_map_of_pres TaskPhase.errOnlyCancelled wakeTimers
        (pres_wakeTimers TaskPhase.errOnlyCancelled rfl)]
      exact herr
    · rw [if_neg hp]
      refine ⟨rfl, ?_, hmain⟩
      show (s.tasks.map wakeTimers).all TaskPhase.errOnlyCancelled = true
      rw [all_map_of_pres TaskPhase.errOnlyCancelled wakeTimers
        (pres_wakeTimers TaskPhase.errOnlyCancelled rfl)]
      exact herr

theorem qc_runFrom (evs : List SchedEv) :
    ∀ s : SchedState, evs.all SchedEv.notSrcFail = true → QC s →
      QC (runFrom s evs) := by
  induction evs with
  | nil => intro s _ h; exact h
  | cons e rest ih =>
    intro s hall h
    simp only [List.all_cons, Bool.and_eq_true] at hall
    exact ih (step s e) hall.2 (qc_step s e hall.1 h)

/-- Claim C1 (amended): once `cancel()` has been invoked on a run of
`processChunks`, no further chunk source is ever submitted to
processing (the started-task count is frozen), the cancellation is
permanent, and if at the moment of the cancel the main loop still has
a cancellation checkpoint ahead (it is still in its submission loop
with sources left, or suspended in the admission race) then, provided
no chunk source fails, any settlement of the run's outcome is a
rejection with the `Cancelled` error.  (The unamended claim — that the
outcome always rejects with `Cancelled` whenever `cancel()` precedes
settlement — is refuted by `c1_cancel_rejects_counterexample`: when
the main loop is already awaiting the final `Promise.all` and every
in-flight attempt succeeds, the run resolves successfully.) -/
theorem c1_cancel_rejects_amended :
    ∀ (s : SchedState) (evs : List SchedEv),
      s.cancelled = true →
      taskErrsCancelled s = true →
      evs.all SchedEv.notSrcFail = true →
      startedCount (runFrom s evs) = startedCount s
      ∧ (runFrom s evs).cancelled = true
      ∧ (beforeAllB s = true →
          ∀ r, (runFrom s evs).main = MainPhase.settled r →
            r = Except.error FFError.cancelled) := by
  intro s evs hc herr hnosrc
  have hstart := started_cancelled_runFrom evs s hc
  refine ⟨hstart.1, hstart.2, ?_⟩
  intro hb r hset
  have hqc := qc_runFrom evs s hnosrc ⟨hc, herr, Or.inl hb⟩
  rcases hqc.2.2 with hb2 | hs2
  · unfold beforeAllB at hb2
    rw [hset] at hb2
    simp at hb2
  · rw [hset] at hs2
    exact MainPhase.settled.inj hs2

/-- Closed witness for the amended claim C1's theorem: a cancelled
2-source run suspended in the admission race with one task mid-attempt
submits nothing further, and when the attempt fails and the retry loop
hits its cancellation checkpoint, the race propagates the `Cancelled`
rejection to the outcome. -/
theorem c1_cancel_rejects_amended_witness :
    (⟨2, 1, true, false, [TaskPhase.running, TaskPhase.notStarted],
        MainPhase.racing 0, 0⟩ : SchedState).cancelled = true
    ∧ beforeAllB ⟨2, 1, true, false, [TaskPhase.running, TaskPhase.notStarted],
        MainPhase.racing 0, 0⟩ = true
    ∧ (runFrom ⟨2, 1, true, false, [TaskPhase.running, TaskPhase.notStarted],
        MainPhase.racing 0, 0⟩
        [SchedEv.attemptFail 0, SchedEv.timerFire 0, SchedEv.taskCheck 0,
         SchedEv.raceWake 0]).main
      = MainPhase.settled (Except.error FFError.cancelled)
    ∧ startedCount (runFrom ⟨2, 1, true, false,
        [TaskPhase.running, TaskPhase.notStarted], MainPhase.racing 0, 0⟩
        [SchedEv.attemptFail 0, SchedEv.timerFire 0, SchedEv.taskCheck 0,
         SchedEv.raceWake 0])
      = startedCount ⟨2, 1, true, false, [TaskPhase.running, TaskPhase.notStarted],
        MainPhase.racing 0, 0⟩ :=
  ⟨rfl, rfl, by decide,
   (c1_cancel_rejects_amended ⟨2, 1, true, false,
      [TaskPhase.running, TaskPhase.notStarted], MainPhase.racing 0, 0⟩
      [SchedEv.attemptFail 0, SchedEv.timerFire 0, SchedEv.taskCheck 0,
       SchedEv.raceWake 0] rfl (by decide) (by decide)).1⟩

/-- Counterexample to claim C1 as stated: in a 1-source run with
concurrency 2, after the single source is submitted the main loop
reaches `await Promise.all` and the task starts its processor attempt;
`cancel()` is then invoked before the run settles, yet the already
running attempt succeeds, the progress counter advances, and the
outcome resolves successfully instead of rejecting with `Cancelled`. -/
theorem c1_cancel_rejects_counterexample :
    (runSched 1 2 [SchedEv.mainStep, SchedEv.mainStep, SchedEv.taskSrcOk 0,
      SchedEv.taskCheck 0, SchedEv.taskCheck 0]).main = MainPhase.awaitingAll
    ∧ (runSched 1 2 [SchedEv.mainStep, SchedEv.mainStep, SchedEv.taskSrcOk 0,
      SchedEv.taskCheck 0, SchedEv.taskCheck 0, SchedEv.cancel]).cancelled = true
    ∧ (runSched 1 2 [SchedEv.mainStep, SchedEv.mainStep, SchedEv.taskSrcOk 0,
      SchedEv.taskCheck 0, SchedEv.taskCheck 0, SchedEv.cancel, SchedEv.attemptOk 0,
      SchedEv.allOk]).main = MainPhase.settled (Except.ok ())
    ∧ (runSched 1 2 [SchedEv.mainStep, SchedEv.mainStep, SchedEv.taskSrcOk 0,
      SchedEv.taskCheck 0, SchedEv.taskCheck 0, SchedEv.cancel, SchedEv.attemptOk 0,
      SchedEv.allOk]).completed = 1 :=
  ⟨rfl, rfl, rfl, rfl⟩

end FluxForge
